import Mathlib

/-!
Shallow embedding of the core of the `envsubst` repository (package `parse`:
lex.go, node.go, parse.go, env.go), together with theorems checking the
specification claims against it.

Modelling conventions:
- Go byte positions are dropped from tokens (`item.pos` is documentation-only);
  an item is its type and its value.
- Go rune classification (`unicode.IsLetter`, `unicode.IsDigit`,
  `strings.ToUpper`, `strings.ToLower`) is modelled by the ASCII behaviour
  (`Char.isAlpha`, `Char.isDigit`, `Char.toUpper`, `Char.toLower`); all inputs
  appearing in the claims are ASCII, where the two agree.
- The lexer goroutine plus channel is modelled as a function from the input to
  the finite list of emitted items: `errorf` and the EOF emission terminate the
  item list exactly as they terminate the goroutine.
- Loops are modelled by fuel-indexed structural recursion.  Every iteration of
  every loop consumes at least one character (lexer) or token (parser), so the
  fuel supplied at the entry points is always sufficient; the fuel-exhaustion
  branches are unreachable there.
-/

namespace envsubst

/-! ### Item types (lex.go, the `itemType` iota constants) -/

def itemError : Nat := 1
def itemEOF : Nat := 2
def itemText : Nat := 3
def itemPlus : Nat := 4
def itemDash : Nat := 5
def itemEquals : Nat := 6
def itemColonEquals : Nat := 7
def itemColonDash : Nat := 8
def itemColonPlus : Nat := 9
def itemCaretCaret : Nat := 10
def itemCommaComma : Nat := 11
def itemVariable : Nat := 12
def itemLeftDelim : Nat := 13
def itemRightDelim : Nat := 14

/-- A token produced by the scanner (lex.go `item`, without the
diagnostic-only byte position). -/
structure Item where
  typ : Nat
  val : String
deriving DecidableEq, Repr

/-- lex.go `isEndOfLine`. -/
def isEndOfLine (c : Char) : Bool := c == '\r' || c == '\n'

/-- lex.go `isAlphaNumeric`: underscore, letter or digit (ASCII model of the
unicode classes). -/
def isAlphaNumeric (c : Char) : Bool := c == '_' || c.isAlpha || c.isDigit

/-- The check `strings.HasPrefix(l.input[l.lastPos:], "${")`: the input from
the start of the most recently emitted item onwards begins with the two
characters of an expansion opener. -/
def startsWithDollarBrace : List Char → Bool
  | '$' :: '{' :: _ => true
  | _ => false

/-- The state functions of the scanner (lex.go `stateFn` values). `varDone` is
the tail of `lexVariable` after the maximal alphanumeric run was consumed. -/
inductive LexFn where
  | text
  | var
  | varDone
  | op
  | subst
deriving DecidableEq, Repr

/--
The scanner state machine, a direct transcription of lex.go.

State components mirror the Go lexer:
- `pending`  : `l.input[l.start:l.pos]`, the unemitted window;
- `sinceLast`: `l.input[l.lastPos:l.pos]`, the window since the start of the
  most recently emitted item (consulted by the `HasPrefix` checks);
- `rest`     : `l.input[l.pos:]`, the unread input;
- `depth`    : `l.subsDepth`.

Emitting an item sets `sinceLast` to the emitted value and clears `pending`;
consuming a character appends it to both windows.  `fuel` bounds the number of
state-function steps; `3 * rest.length + 3` always suffices, because every
cycle of states consumes at least one character.
-/
def lexRun (noDigit : Bool) (matcher : Option (String → Bool)) :
    Nat → LexFn → List Char → List Char → List Char → Int → List Item
  | 0, _, _, _, _, _ => []
  | fuel+1, .text, pending, sinceLast, rest, depth =>
    -- lex.go `lexText`
    match rest with
    | [] =>
      (if pending.isEmpty then [] else [⟨itemText, String.mk pending⟩]) ++ [⟨itemEOF, ""⟩]
    | c :: rest1 =>
      if c == '$' then
        let flushed : List Item :=
          if pending.isEmpty then [] else [⟨itemText, String.mk pending⟩]
        let sl1 : List Char := (if pending.isEmpty then sinceLast else pending) ++ ['$']
        flushed ++
          (match rest1 with
           | [] =>
             -- peek is EOF: no case matches, the loop then reads EOF and stops
             [⟨itemText, "$"⟩, ⟨itemEOF, ""⟩]
           | r2 :: rest2 =>
             if noDigit && r2.isDigit then
               -- ignore variable starting with digit like $1
               ⟨itemText, String.mk ['$', r2]⟩ ::
                 lexRun noDigit matcher fuel .text [] ['$', r2] rest2 depth
             else if r2 == '$' then
               -- escape: drop the first dollar, emit the second as text
               ⟨itemText, "$"⟩ :: lexRun noDigit matcher fuel .text [] ['$'] rest2 depth
             else if r2 == '{' then
               match rest2 with
               | [] =>
                 ⟨itemLeftDelim, "$\x7b"⟩ ::
                   lexRun noDigit matcher fuel .op [] ['$', '{'] [] (depth + 1)
               | r3 :: rest3 =>
                 if noDigit && r3.isDigit then
                   -- ignore variable starting with digit like $\x7b1\x7d
                   ⟨itemText, String.mk ['$', '{', r3]⟩ ::
                     lexRun noDigit matcher fuel .text [] ['$', '{', r3] rest3 depth
                 else
                   ⟨itemLeftDelim, "$\x7b"⟩ ::
                     lexRun noDigit matcher fuel .op [] ['$', '{'] rest2 (depth + 1)
             else if isAlphaNumeric r2 then
               lexRun noDigit matcher fuel .var ['$'] sl1 rest1 depth
             else
               lexRun noDigit matcher fuel .text ['$'] sl1 rest1 depth)
      else
        lexRun noDigit matcher fuel .text (pending ++ [c]) (sinceLast ++ [c]) rest1 depth
  | fuel+1, .var, pending, sinceLast, rest, depth =>
    -- lex.go `lexVariable`: scan the maximal alphanumeric run
    match rest with
    | [] => lexRun noDigit matcher fuel .varDone pending sinceLast [] depth
    | c :: rest1 =>
      if isAlphaNumeric c then
        lexRun noDigit matcher fuel .var (pending ++ [c]) (sinceLast ++ [c]) rest1 depth
      else
        lexRun noDigit matcher fuel .varDone pending sinceLast rest depth
  | fuel+1, .varDone, pending, sinceLast, rest, depth =>
    -- lex.go `lexVariable` after the run: strip a leading dollar, apply the
    -- underscore rule and the matcher, emit text or variable
    let v : List Char :=
      match pending with
      | p0 :: ptail => if p0 == '$' then ptail else pending
      | [] => pending
    let vs : String := String.mk v
    let rejected : Bool :=
      vs == "_" || (match matcher with | some m => !(m vs) | none => false)
    let it : Item := ⟨if rejected then itemText else itemVariable, String.mk pending⟩
    if depth > 0 then
      it :: lexRun noDigit matcher fuel .op [] pending rest depth
    else
      it :: lexRun noDigit matcher fuel .text [] pending rest depth
  | fuel+1, .op, pending, sinceLast, rest, depth =>
    -- lex.go `lexSubstitutionOperator`
    match rest with
    | [] => [⟨itemError, "closing brace expected"⟩]
    | c :: rest1 =>
      if c == '}' then
        ⟨itemRightDelim, String.mk (pending ++ ['}'])⟩ ::
          (if depth - 1 > 0 then
            lexRun noDigit matcher fuel .subst [] (pending ++ ['}']) rest1 (depth - 1)
          else
            lexRun noDigit matcher fuel .text [] (pending ++ ['}']) rest1 (depth - 1))
      else if isEndOfLine c then
        [⟨itemError, "closing brace expected"⟩]
      else if isAlphaNumeric c && startsWithDollarBrace (sinceLast ++ c :: rest1) then
        lexRun noDigit matcher fuel .var (pending ++ [c]) (sinceLast ++ [c]) rest1 depth
      else if c == '+' then
        ⟨itemPlus, String.mk (pending ++ ['+'])⟩ ::
          lexRun noDigit matcher fuel .subst [] (pending ++ ['+']) rest1 depth
      else if c == '-' then
        ⟨itemDash, String.mk (pending ++ ['-'])⟩ ::
          lexRun noDigit matcher fuel .subst [] (pending ++ ['-']) rest1 depth
      else if c == '=' then
        ⟨itemEquals, String.mk (pending ++ ['='])⟩ ::
          lexRun noDigit matcher fuel .subst [] (pending ++ ['=']) rest1 depth
      else if c == '^' then
        match rest1 with
        | r2 :: rest2 =>
          if r2 == '^' then
            ⟨itemCaretCaret, String.mk (pending ++ ['^', '^'])⟩ ::
              lexRun noDigit matcher fuel .subst [] (pending ++ ['^', '^']) rest2 depth
          else
            ⟨itemText, String.mk (pending ++ ['^'])⟩ ::
              lexRun noDigit matcher fuel .subst [] (pending ++ ['^']) (r2 :: rest2) depth
        | [] =>
          ⟨itemText, String.mk (pending ++ ['^'])⟩ ::
            lexRun noDigit matcher fuel .subst [] (pending ++ ['^']) [] depth
      else if c == ',' then
        match rest1 with
        | r2 :: rest2 =>
          if r2 == ',' then
            ⟨itemCommaComma, String.mk (pending ++ [',', ','])⟩ ::
              lexRun noDigit matcher fuel .subst [] (pending ++ [',', ',']) rest2 depth
          else
            ⟨itemText, String.mk (pending ++ [','])⟩ ::
              lexRun noDigit matcher fuel .subst [] (pending ++ [',']) (r2 :: rest2) depth
        | [] =>
          ⟨itemText, String.mk (pending ++ [','])⟩ ::
            lexRun noDigit matcher fuel .subst [] (pending ++ [',']) [] depth
      else if c == ':' then
        match rest1 with
        | x :: rest2 =>
          if x == '-' then
            ⟨itemColonDash, String.mk (pending ++ [':', '-'])⟩ ::
              lexRun noDigit matcher fuel .subst [] (pending ++ [':', '-']) rest2 depth
          else if x == '=' then
            ⟨itemColonEquals, String.mk (pending ++ [':', '='])⟩ ::
              lexRun noDigit matcher fuel .subst [] (pending ++ [':', '=']) rest2 depth
          else if x == '+' then
            ⟨itemColonPlus, String.mk (pending ++ [':', '+'])⟩ ::
              lexRun noDigit matcher fuel .subst [] (pending ++ [':', '+']) rest2 depth
          else
            -- the inner switch consumed a character but emitted nothing
            lexRun noDigit matcher fuel .subst (pending ++ [':', x]) (sinceLast ++ [':', x]) rest2 depth
        | [] =>
          lexRun noDigit matcher fuel .subst (pending ++ [':']) (sinceLast ++ [':']) [] depth
      else
        -- no case matched: the character stays pending
        lexRun noDigit matcher fuel .subst (pending ++ [c]) (sinceLast ++ [c]) rest1 depth
  | fuel+1, .subst, pending, sinceLast, rest, depth =>
    -- lex.go `lexSubstitution`
    match rest with
    | [] => [⟨itemError, "closing brace expected"⟩]
    | c :: rest1 =>
      if c == '}' then
        ⟨itemRightDelim, String.mk (pending ++ ['}'])⟩ ::
          (if depth - 1 > 0 then
            lexRun noDigit matcher fuel .subst [] (pending ++ ['}']) rest1 (depth - 1)
          else
            lexRun noDigit matcher fuel .text [] (pending ++ ['}']) rest1 (depth - 1))
      else if isEndOfLine c then
        [⟨itemError, "closing brace expected"⟩]
      else if (isAlphaNumeric c && startsWithDollarBrace (sinceLast ++ c :: rest1)) || c == '$' then
        -- the alphanumeric case falls through into the dollar case
        match rest1 with
        | r1 :: rest2 =>
          if r1 == '{' then
            match rest2 with
            | r2 :: rest3 =>
              if noDigit && r2.isDigit then
                ⟨itemText, String.mk (pending ++ [c, '{', r2])⟩ ::
                  lexRun noDigit matcher fuel .subst [] (pending ++ [c, '{', r2]) rest3 depth
              else
                ⟨itemLeftDelim, String.mk (pending ++ [c, '{'])⟩ ::
                  lexRun noDigit matcher fuel .op [] (pending ++ [c, '{']) rest2 (depth + 1)
            | [] =>
              ⟨itemLeftDelim, String.mk (pending ++ [c, '{'])⟩ ::
                lexRun noDigit matcher fuel .op [] (pending ++ [c, '{']) [] (depth + 1)
          else
            lexRun noDigit matcher fuel .var (pending ++ [c]) (sinceLast ++ [c]) (r1 :: rest2) depth
        | [] =>
          lexRun noDigit matcher fuel .var (pending ++ [c]) (sinceLast ++ [c]) [] depth
      else
        ⟨itemText, String.mk (pending ++ [c])⟩ ::
          lexRun noDigit matcher fuel .subst [] (pending ++ [c]) rest1 depth

/-- lex.go `lex`: scan a whole input.  The fuel `3 * length + 3` is always
sufficient (every cycle of state steps consumes at least one character). -/
def lex (noDigit : Bool) (matcher : Option (String → Bool)) (input : List Char) : List Item :=
  lexRun noDigit matcher (3 * input.length + 3) .text [] [] input 0

/-! ### The naming store (env.go) -/

/-- Split a string at its first '=' character: the Go loops
`for j := 0; j < len(s); j++ { if s[j] == '=' ... }` in `Env.init` and
`Env.Get`.  Returns none when the string contains no '='. -/
def splitFirstEq : List Char → Option (List Char × List Char)
  | [] => none
  | c :: cs =>
    if c == '=' then some ([], cs)
    else
      match splitFirstEq cs with
      | some (k, v) => some (c :: k, v)
      | none => none

/-- env.go `Env`: the raw entry list plus the name-to-first-index mapping.
The Go `map[string]int` is represented as an association list; `init` and
`Set` only ever insert a key that is not yet present, so each key occurs at
most once and lookup is order-independent, as in the Go map. -/
structure Env where
  env : List String
  indexes : List (String × Nat)

/-- env.go `Env.init`: index each entry by the text before its first '=';
the first entry to declare a name wins, later entries with the same name are
blanked in place.  `i` is the index of the first entry of the remaining list
`l`, `idxs` the mapping built so far. -/
def envInit : List String → Nat → List (String × Nat) → List String × List (String × Nat)
  | [], _, idxs => ([], idxs)
  | s :: l, i, idxs =>
    match splitFirstEq s.toList with
    | none =>
      -- no '=': the entry is kept and never indexed
      let p := envInit l (i + 1) idxs
      (s :: p.1, p.2)
    | some (key, _) =>
      let k := String.mk key
      match idxs.lookup k with
      | some _ =>
        -- duplicate name: blank the entry
        let p := envInit l (i + 1) idxs
        ("" :: p.1, p.2)
      | none =>
        let p := envInit l (i + 1) (idxs ++ [(k, i)])
        (s :: p.1, p.2)

/-- env.go `NewEnv`. -/
def NewEnv (entries : List String) : Env :=
  let p := envInit entries 0 []
  ⟨p.1, p.2⟩

/-- env.go `Env.Get`: look the key up in the index, then return the text after
the first '=' of the stored entry (empty string when absent or without '='). -/
def Env.Get (e : Env) (key : String) : String :=
  match e.indexes.lookup key with
  | none => ""
  | some i =>
    let s := e.env.getD i ""
    match splitFirstEq s.toList with
    | some (_, v) => String.mk v
    | none => ""

/-- env.go `Env.Has`. -/
def Env.Has (e : Env) (key : String) : Bool :=
  (e.indexes.lookup key).isSome

/-! ### Policy, error values, nodes (parse.go, error.go, node.go) -/

/-- parse.go `Restrictions` (field order as in the Go struct). -/
structure Restrictions where
  noUnset : Bool
  noEmpty : Bool
  noDigit : Bool
  keepUnset : Bool
  varMatcher : Option (String → Bool)

/-- parse.go `Mode`. -/
inductive Mode where
  | Quick
  | AllErrors
deriving DecidableEq, Repr

/-- error.go `interErr`: an error message with an error code.  Errors made by
`errors.New` (parse errors, the combined AllErrors error) carry the empty
code; `Error(msg, code)` carries "NoUnset" or "NoEmpty". -/
structure InterErr where
  msg : String
  code : String
deriving DecidableEq, Repr

/-- node.go node tree.  The Go `SubstitutionNode.Default` field is a nilable
`Node`; it is modelled by two constructors, `subst` (default present) and
`subst0` (default absent, Go nil). -/
inductive Node where
  | text (s : String)
  | var (ident : String)
  | subst (expType : Nat) (ident : String) (dflt : Node)
  | subst0 (expType : Nat) (ident : String)
deriving DecidableEq, Repr

/-- node.go `patternDefinitions`: operator spelling and transformer for the
case-conversion item types (`strings.ToUpper`/`ToLower`, ASCII model). -/
def patternDefinitions (t : Nat) : Option (String × (String → String)) :=
  if t == itemCaretCaret then some ("^^", fun s => String.mk (s.toList.map Char.toUpper))
  else if t == itemCommaComma then some (",,", fun s => String.mk (s.toList.map Char.toLower))
  else none

/-- node.go `VariableNode.String`: KeepUnset pass-through, then
`validateNoUnset`, then fetch, then `validateNoEmpty`. -/
def variableString (env : Env) (r : Restrictions) (ident : String) : Except InterErr String :=
  if r.keepUnset && !(env.Has ident) then .ok ("$" ++ ident)
  else if r.noUnset && !(env.Has ident) then
    .error ⟨"variable $\x7b" ++ ident ++ "\x7d not set", "NoUnset"⟩
  else
    let value := env.Get ident
    if r.noEmpty && value == "" && env.Has ident then
      .error ⟨"variable $\x7b" ++ ident ++ "\x7d set but empty", "NoEmpty"⟩
    else .ok value

/-- The tail of node.go `SubstitutionNode.String` reached when no default
branch consumed the node: KeepUnset verbatim form, else the variable rule. -/
def substFallback (env : Env) (r : Restrictions) (ident : String) : Except InterErr String :=
  if r.keepUnset && !(env.Has ident) then .ok ("$\x7b" ++ ident ++ "\x7d")
  else variableString env r ident

/-- node.go `SubstitutionNode.String`, pattern-transform branch. -/
def patternRender (env : Env) (r : Restrictions) (ident : String)
    (pd : String × (String → String)) : Except InterErr String :=
  if r.keepUnset && !(env.Has ident) then
    .ok ("$\x7b" ++ ident ++ pd.1 ++ "\x7d")
  else
    match variableString env r ident with
    | .error e => .error e
    | .ok value => .ok (pd.2 value)

/-- node.go `SubstitutionNode.String`, the default-operator logic, shared by
the with-default and without-default node shapes via `dflt`. -/
def nodeString (env : Env) (r : Restrictions) : Node → Except InterErr String
  | .text s => .ok s
  | .var ident => variableString env r ident
  | .subst0 expType ident =>
    match patternDefinitions expType with
    | some pd => patternRender env r ident pd
    | none =>
      -- `t.Default != nil` fails: the operator branch is skipped entirely
      substFallback env r ident
  | .subst expType ident d =>
    match patternDefinitions expType with
    | some pd => patternRender env r ident pd
    | none =>
      if itemPlus ≤ expType then
        if expType == itemColonDash || expType == itemColonEquals then
          if env.Has ident && env.Get ident != "" then variableString env r ident
          else nodeString env r d
        else if expType == itemPlus then
          if env.Has ident then nodeString env r d else .ok ""
        else if expType == itemColonPlus then
          if env.Has ident && env.Get ident != "" then nodeString env r d else .ok ""
        else
          if !(env.Has ident) then nodeString env r d
          else substFallback env r ident
      else substFallback env r ident

/-! ### The parser (parse.go) -/

/-- `strings.TrimPrefix(v, "$")`: remove one leading '$' if present. -/
def trimDollar (s : String) : String :=
  match s.toList with
  | '$' :: tail => String.mk tail
  | _ => s

/-- parse.go `Parser.action`, the inner `Text:` loop: concatenate tokens into
one text run until a right delimiter, error, EOF or left delimiter is peeked;
a variable token is replaced by its store value when set, kept as original
text otherwise.  Returns the accumulated text and the unconsumed remainder. -/
def collectText (env : Env) (acc : String) : List Item → String × List Item
  | [] => (acc, [])
  | t :: rest =>
    if t.typ == itemRightDelim || t.typ == itemError || t.typ == itemEOF then
      (acc, t :: rest)
    else if t.typ == itemVariable then
      let varName := trimDollar t.val
      if env.Has varName then collectText env (acc ++ env.Get varName) rest
      else collectText env (acc ++ t.val) rest
    else if t.typ == itemLeftDelim then
      (acc, t :: rest)
    else
      collectText env (acc ++ t.val) rest

/--
parse.go `Parser.action`, the outer `Loop`, with the loop state made explicit:
`expType` is the recorded operator type (Go zero value 0 before any operator
token), `dflt` the default/alternate node collected so far (`none` is Go nil),
`ident` the substitution variable token value.  A nested left delimiter
followed by a variable starts a nested action (inlined recursive call with
fresh loop state), whose node is rendered immediately and spliced in as a
text default.  `fuel` bounds the iterations; every step consumes at least one
token, so `tokens.length + 1` at the entry point always suffices.
-/
def actionLoop (env : Env) (r : Restrictions) :
    Nat → Nat → Option Node → String → List Item → Except InterErr (Node × List Item)
  | 0, _, _, _, _ => .error ⟨"token stream stalled", ""⟩
  | _+1, _, _, _, [] => .error ⟨"token stream stalled", ""⟩
  | fuel+1, expType, dflt, ident, t :: rest =>
    if t.typ == itemRightDelim then
      match dflt with
      | some d => .ok (.subst expType ident d, rest)
      | none => .ok (.subst0 expType ident, rest)
    else if t.typ == itemError then .error ⟨t.val, ""⟩
    else if t.typ == itemVariable then
      actionLoop env r fuel expType (some (.var (trimDollar t.val))) ident rest
    else if t.typ == itemText then
      let p := collectText env t.val rest
      actionLoop env r fuel expType (some (.text p.1)) ident p.2
    else if t.typ == itemLeftDelim then
      match rest with
      | t2 :: rest2 =>
        if t2.typ == itemVariable then
          match actionLoop env r fuel 0 none t2.val rest2 with
          | .error e => .error e
          | .ok (nested, rest1) =>
            match nodeString env r nested with
            | .error e => .error e
            | .ok s => actionLoop env r fuel expType (some (.text s)) ident rest1
        else actionLoop env r fuel expType (some (.text "$\x7b")) ident rest
      | [] => actionLoop env r fuel expType (some (.text "$\x7b")) ident rest
    else
      actionLoop env r fuel t.typ dflt ident rest

/-- parse.go `Parser.action`: the first item is the substitution variable. -/
def action (env : Env) (r : Restrictions) (fuel : Nat) :
    List Item → Except InterErr (Node × List Item)
  | [] => .error ⟨"token stream stalled", ""⟩
  | varTok :: rest => actionLoop env r fuel 0 none varTok.val rest

/-- parse.go `Parser.parse`: the top-level loop, building the node list.
Returns the nodes built before completion or before the first parse error,
and that error if any (the nodes built so far are still rendered by `Parse`
in AllErrors mode, matching the Go control flow). -/
def parseLoop (env : Env) (r : Restrictions) :
    Nat → List Item → List Node × Option InterErr
  | 0, _ => ([], some ⟨"token stream stalled", ""⟩)
  | _+1, [] => ([], none)
  | fuel+1, t :: rest =>
    if t.typ == itemEOF then ([], none)
    else if t.typ == itemError then ([], some ⟨t.val, ""⟩)
    else if t.typ == itemVariable then
      let p := parseLoop env r fuel rest
      (.var (trimDollar t.val) :: p.1, p.2)
    else if t.typ == itemLeftDelim
        && (match rest with | t2 :: _ => t2.typ == itemVariable | [] => false) then
      match action env r fuel rest with
      | .error e => ([], some e)
      | .ok (n, rest1) =>
        let p := parseLoop env r fuel rest1
        (n :: p.1, p.2)
    else
      let p := parseLoop env r fuel rest
      (.text t.val :: p.1, p.2)

/-- parse.go `New`: building a parser forces `NoEmpty` and `NoUnset` off when
`KeepUnset` is enabled.  The function returns the restrictions the parser
will use. -/
def New (r : Restrictions) : Restrictions :=
  if r.keepUnset then { r with noEmpty := false, noUnset := false } else r

/-- parse.go `Parser.Parse`, Quick-mode render loop: return the first
per-node error immediately, discarding the partial output. -/
def renderQuick (env : Env) (r : Restrictions) :
    List Node → String → String × Option InterErr
  | [], out => (out, none)
  | n :: ns, out =>
    match nodeString env r n with
    | .error e => ("", some e)
    | .ok s => renderQuick env r ns (out ++ s)

/-- parse.go `Parser.Parse`, AllErrors-mode render loop: render every node,
failed nodes contribute no text, collect every error in node order. -/
def renderAllErrors (env : Env) (r : Restrictions) :
    List Node → String → List InterErr → String × List InterErr
  | [], out, errs => (out, errs)
  | n :: ns, out, errs =>
    match nodeString env r n with
    | .error e => renderAllErrors env r ns out (errs ++ [e])
    | .ok s => renderAllErrors env r ns (out ++ s) errs

/-- parse.go `Parser.Parse`: scan, build the node list, render it under the
active mode; in AllErrors mode the collected messages are joined by newline
into one plain error. -/
def Parse (env : Env) (r : Restrictions) (mode : Mode) (input : String) :
    String × Option InterErr :=
  let items := lex r.noDigit r.varMatcher input.toList
  let (nodes, perr) := parseLoop env r (items.length + 1) items
  match mode with
  | .Quick =>
    match perr with
    | some e => ("", some e)
    | none => renderQuick env r nodes ""
  | .AllErrors =>
    let errs0 : List InterErr := match perr with | some e => [e] | none => []
    let (out, errs) := renderAllErrors env r nodes "" errs0
    match errs with
    | [] => (out, none)
    | _ => ("", some ⟨String.intercalate "\n" (errs.map (fun e => e.msg)), ""⟩)

/-! ### One-step unfolding lemmas for the fuel-indexed loops -/

theorem actionLoop_zero (env : Env) (r : Restrictions) (expT : Nat) (dflt : Option Node)
    (ident : String) (ts : List Item) :
    actionLoop env r 0 expT dflt ident ts = .error ⟨"token stream stalled", ""⟩ := rfl

theorem actionLoop_nil (env : Env) (r : Restrictions) (fuel expT : Nat) (dflt : Option Node)
    (ident : String) :
    actionLoop env r (fuel+1) expT dflt ident [] = .error ⟨"token stream stalled", ""⟩ := rfl

theorem actionLoop_cons (env : Env) (r : Restrictions) (fuel expT : Nat) (dflt : Option Node)
    (ident : String) (t : Item) (rest : List Item) :
    actionLoop env r (fuel+1) expT dflt ident (t :: rest) =
      (if t.typ == itemRightDelim then
        match dflt with
        | some d => .ok (.subst expT ident d, rest)
        | none => .ok (.subst0 expT ident, rest)
      else if t.typ == itemError then .error ⟨t.val, ""⟩
      else if t.typ == itemVariable then
        actionLoop env r fuel expT (some (.var (trimDollar t.val))) ident rest
      else if t.typ == itemText then
        let p := collectText env t.val rest
        actionLoop env r fuel expT (some (.text p.1)) ident p.2
      else if t.typ == itemLeftDelim then
        match rest with
        | t2 :: rest2 =>
          if t2.typ == itemVariable then
            match actionLoop env r fuel 0 none t2.val rest2 with
            | .error e => .error e
            | .ok (nested, rest1) =>
              match nodeString env r nested with
              | .error e => .error e
              | .ok s => actionLoop env r fuel expT (some (.text s)) ident rest1
          else actionLoop env r fuel expT (some (.text "$\x7b")) ident rest
        | [] => actionLoop env r fuel expT (some (.text "$\x7b")) ident rest
      else
        actionLoop env r fuel t.typ dflt ident rest) := rfl

theorem parseLoop_zero (env : Env) (r : Restrictions) (ts : List Item) :
    parseLoop env r 0 ts = ([], some ⟨"token stream stalled", ""⟩) := rfl

theorem parseLoop_nil (env : Env) (r : Restrictions) (fuel : Nat) :
    parseLoop env r (fuel+1) [] = ([], none) := rfl

theorem parseLoop_cons (env : Env) (r : Restrictions) (fuel : Nat) (t : Item)
    (rest : List Item) :
    parseLoop env r (fuel+1) (t :: rest) =
      (if t.typ == itemEOF then ([], none)
      else if t.typ == itemError then ([], some ⟨t.val, ""⟩)
      else if t.typ == itemVariable then
        let p := parseLoop env r fuel rest
        (.var (trimDollar t.val) :: p.1, p.2)
      else if t.typ == itemLeftDelim
          && (match rest with | t2 :: _ => t2.typ == itemVariable | [] => false) then
        match action env r fuel rest with
        | .error e => ([], some e)
        | .ok (n, rest1) =>
          let p := parseLoop env r fuel rest1
          (n :: p.1, p.2)
      else
        let p := parseLoop env r fuel rest
        (.text t.val :: p.1, p.2)) := rfl

/-! ### Concrete fixtures (the store and policies of the repository tests) -/

/-- The store used by the repository parse tests: BAR=bar, FOO=foo,
EMPTY and ALSO_EMPTY set to the empty string. -/
def fakeEnv : Env :=
  NewEnv ["BAR=bar", "FOO=foo", "EMPTY=", "ALSO_EMPTY=", "A=AAA", "test=test"]

/-- No restriction. -/
def relaxed : Restrictions := ⟨false, false, false, false, none⟩

/-- Fail on set-but-empty variables only (`NoEmpty`). -/
def noEmptyR : Restrictions := ⟨false, true, false, false, none⟩

/-- Fail on unset variables only (`NoUnset`). -/
def noUnsetR : Restrictions := ⟨true, false, false, false, none⟩

/-- Fail on unset and on set-but-empty variables. -/
def strictR : Restrictions := ⟨true, true, false, false, none⟩

/-- Preserve unresolved references verbatim (`KeepUnset`). -/
def keepUnsetR : Restrictions := ⟨false, false, false, true, none⟩

/-! ### Claim C1 -/

/-- Claim C1: with BAR=bar and EMPTY set to the empty string, rendering
"$\x7bEMPTY-x\x7d" under a policy with `failOnEmpty` enabled fails with an
Empty error (code "NoEmpty", message `variable $\x7bEMPTY\x7d set but empty`),
while "$\x7bEMPTY:-x\x7d" under the same policy succeeds and returns "x":
`-` takes its default only when the variable is unset, `:-` also when it is
empty. -/
theorem C1_dash_vs_colonDash :
    Parse fakeEnv noEmptyR .Quick "$\x7bEMPTY-x\x7d" =
      ("", some ⟨"variable $\x7bEMPTY\x7d set but empty", "NoEmpty"⟩) ∧
    Parse fakeEnv noEmptyR .Quick "$\x7bEMPTY:-x\x7d" = ("x", none) := by
  constructor <;> rfl

/-! ### Claim C2 -/

/-- Claim C2: for every store, policy, name N and present default node D,
rendering the substitution node of `$\x7bN+D\x7d` yields the empty string
with no error when N is absent, and yields the rendering of D (errors and
all) when N is present, regardless of the value of N. -/
theorem C2_plus_operator (env : Env) (r : Restrictions) (n : String) (d : Node) :
    (env.Has n = false → nodeString env r (.subst itemPlus n d) = .ok "") ∧
    (env.Has n = true → nodeString env r (.subst itemPlus n d) = nodeString env r d) := by
  constructor <;> intro h <;>
    simp [nodeString, patternDefinitions, itemPlus, itemCaretCaret, itemCommaComma,
      itemColonDash, itemColonEquals, itemColonPlus, h]

/-- Witness for C2 at a concrete store: X is set (value "1"), Y is not. -/
theorem C2_plus_operator_witness :
    nodeString (NewEnv ["X=1"]) relaxed (.subst itemPlus "Y" (.text "alt")) = .ok "" ∧
    nodeString (NewEnv ["X=1"]) relaxed (.subst itemPlus "X" (.text "alt")) = .ok "alt" :=
  ⟨(C2_plus_operator (NewEnv ["X=1"]) relaxed "Y" (.text "alt")).1 (by rfl),
   ((C2_plus_operator (NewEnv ["X=1"]) relaxed "X" (.text "alt")).2 (by rfl)).trans (by rfl)⟩

/-! ### Claim C10 -/

/-- Claim C10: a substitution node with a default/alternate operator but no
default node skips the operator logic entirely and renders exactly like the
operator-less node of a plain `$\x7bN\x7d` reference; in particular
`$\x7bN+\x7d` with N set renders the value of N. -/
theorem C10_operator_without_default (env : Env) (r : Restrictions) (n : String) (expT : Nat)
    (h : expT = itemPlus ∨ expT = itemDash ∨ expT = itemEquals ∨ expT = itemColonDash ∨
      expT = itemColonEquals ∨ expT = itemColonPlus) :
    nodeString env r (.subst0 expT n) = nodeString env r (.subst0 0 n) ∧
    Parse (NewEnv ["N=val"]) relaxed .Quick "$\x7bN+\x7d" = ("val", none) := by
  refine ⟨?_, by rfl⟩
  rcases h with h | h | h | h | h | h <;> subst h <;>
    simp [nodeString, patternDefinitions, itemPlus, itemDash, itemEquals, itemCaretCaret,
      itemCommaComma, itemColonDash, itemColonEquals, itemColonPlus]

/-- Witness for C10 at the `+` operator under the strict policy. -/
theorem C10_operator_without_default_witness :
    nodeString fakeEnv strictR (.subst0 itemPlus "Z") = nodeString fakeEnv strictR (.subst0 0 "Z") ∧
    Parse (NewEnv ["N=val"]) relaxed .Quick "$\x7bN+\x7d" = ("val", none) :=
  C10_operator_without_default fakeEnv strictR "Z" itemPlus (Or.inl rfl)

/-! ### Claim C5 -/

/-- Claim C5: `$\x7bVAR^^\x7d` applies the uppercase transform to the rendered
value of VAR and `$\x7bVAR,,\x7d` the lowercase transform (VAR=Hello World
gives HELLO WORLD and hello world), a present default node is ignored
entirely, under `preserveUnresolved` with VAR unset the original text is
rendered verbatim, and otherwise the variable is rendered first (Unset/Empty
checks included) and the transform applied to the result. -/
theorem C5_case_transforms (env : Env) (r : Restrictions) (ident : String) :
    Parse (NewEnv ["VAR=Hello World"]) relaxed .Quick "$\x7bVAR^^\x7d" = ("HELLO WORLD", none) ∧
    Parse (NewEnv ["VAR=Hello World"]) relaxed .Quick "$\x7bVAR,,\x7d" = ("hello world", none) ∧
    Parse (NewEnv []) keepUnsetR .Quick "$\x7bVAR^^\x7d" = ("$\x7bVAR^^\x7d", none) ∧
    Parse (NewEnv []) keepUnsetR .Quick "$\x7bVAR,,\x7d" = ("$\x7bVAR,,\x7d", none) ∧
    (∀ d : Node, nodeString env r (.subst itemCaretCaret ident d) =
      nodeString env r (.subst0 itemCaretCaret ident)) ∧
    (∀ d : Node, nodeString env r (.subst itemCommaComma ident d) =
      nodeString env r (.subst0 itemCommaComma ident)) ∧
    (r.keepUnset = true → env.Has ident = false →
      nodeString env r (.subst0 itemCaretCaret ident) = .ok ("$\x7b" ++ ident ++ "^^\x7d")) ∧
    ((r.keepUnset && !(env.Has ident)) = false →
      nodeString env r (.subst0 itemCaretCaret ident) =
        match variableString env r ident with
        | .error e => .error e
        | .ok v => .ok (String.mk (v.toList.map Char.toUpper))) := by
  refine ⟨by rfl, by rfl, by rfl, by rfl, ?_, ?_, ?_, ?_⟩
  · intro d
    simp [nodeString, patternDefinitions, itemCaretCaret, itemCommaComma]
  · intro d
    simp [nodeString, patternDefinitions, itemCaretCaret, itemCommaComma]
  · intro h1 h2
    simp [nodeString, patternDefinitions, patternRender, itemCaretCaret, itemCommaComma, h1, h2,
      String.append_assoc]
  · intro h
    simp [nodeString, patternDefinitions, patternRender, itemCaretCaret, itemCommaComma, h]

/-- Witness for C5: the verbatim branch at a concrete unset variable, and the
transform branch at a concrete set variable. -/
theorem C5_case_transforms_witness :
    nodeString (NewEnv []) keepUnsetR (.subst0 itemCaretCaret "V") = .ok "$\x7bV^^\x7d" ∧
    nodeString fakeEnv relaxed (.subst0 itemCaretCaret "BAR") =
      (match variableString fakeEnv relaxed "BAR" with
       | .error e => .error e
       | .ok v => .ok (String.mk (v.toList.map Char.toUpper))) :=
  ⟨(C5_case_transforms (NewEnv []) keepUnsetR "V").2.2.2.2.2.2.1 rfl rfl,
   (C5_case_transforms fakeEnv relaxed "BAR").2.2.2.2.2.2.2 rfl⟩

/-! ### Claim C3 -/

/-- The text a node contributes in AllErrors mode: its rendering on success,
nothing on failure. -/
def nodeOut (env : Env) (r : Restrictions) (n : Node) : String :=
  match nodeString env r n with
  | .ok s => s
  | .error _ => ""

/-- The error a node contributes, if any. -/
def nodeErr (env : Env) (r : Restrictions) (n : Node) : Option InterErr :=
  match nodeString env r n with
  | .ok _ => none
  | .error e => some e

/-- Concatenation of a list of strings in order. -/
def concatAll : List String → String
  | [] => ""
  | s :: l => s ++ concatAll l

/-- The AllErrors render loop renders every node in order: the output is the
concatenation of the per-node texts (failed nodes contributing nothing) and
the collected errors are the per-node errors in node order. -/
theorem renderAllErrors_eq (env : Env) (r : Restrictions) :
    ∀ (ns : List Node) (out : String) (errs : List InterErr),
      renderAllErrors env r ns out errs =
        (out ++ concatAll (ns.map (nodeOut env r)), errs ++ ns.filterMap (nodeErr env r)) := by
  intro ns
  induction ns with
  | nil =>
    intro out errs
    simp [renderAllErrors, concatAll]
  | cons n ns ih =>
    intro out errs
    rw [renderAllErrors]
    cases h : nodeString env r n with
    | ok s =>
      simp [ih, nodeOut, nodeErr, h, concatAll, String.append_assoc]
    | error e =>
      simp [ih, nodeOut, nodeErr, h, concatAll]

/-- Claim C3: in AllErrors mode every parsed node is rendered even after
failures, failed nodes contribute no text, and the returned error (when any
error occurred) is the single error whose message is all individual messages
joined by newline in node order, the parse error first; with zero errors the
concatenated output is returned with no error.  Concretely, parsing
`$\x7bNOTSET\x7d and $EMPTY` under the strict policy in AllErrors mode gives
exactly the two messages joined by a newline. -/
theorem C3_allErrors_aggregation (env : Env) (r : Restrictions) (input : String) :
    (Parse env r .AllErrors input =
      (let items := lex r.noDigit r.varMatcher input.toList
       let parsed := parseLoop env r (items.length + 1) items
       let errs : List InterErr :=
         (match parsed.2 with | some e => [e] | none => []) ++
           parsed.1.filterMap (nodeErr env r)
       match errs with
       | [] => (concatAll (parsed.1.map (nodeOut env r)), none)
       | _ => ("", some ⟨String.intercalate "\n" (errs.map (fun e => e.msg)), ""⟩))) ∧
    Parse fakeEnv strictR .AllErrors "$\x7bNOTSET\x7d and $EMPTY" =
      ("", some ⟨"variable $\x7bNOTSET\x7d not set\nvariable $\x7bEMPTY\x7d set but empty", ""⟩) := by
  refine ⟨?_, by rfl⟩
  show Parse env r .AllErrors input = _
  rw [Parse]
  simp only [renderAllErrors_eq]
  rfl

/-! ### Claim C4 -/

theorem variableString_ok (env : Env) (r : Restrictions) (ident : String)
    (hU : r.noUnset = false) (hE : r.noEmpty = false) :
    ∃ s, variableString env r ident = .ok s := by
  rw [variableString, hU, hE]
  simp only [Bool.false_and, Bool.false_eq_true, if_false]
  split
  · exact ⟨_, rfl⟩
  · exact ⟨_, rfl⟩

theorem patternRender_ok (env : Env) (r : Restrictions) (ident : String)
    (pd : String × (String → String))
    (hU : r.noUnset = false) (hE : r.noEmpty = false) :
    ∃ s, patternRender env r ident pd = .ok s := by
  rw [patternRender]
  split
  · exact ⟨_, rfl⟩
  · obtain ⟨s, hs⟩ := variableString_ok env r ident hU hE
    rw [hs]
    exact ⟨_, rfl⟩

theorem substFallback_ok (env : Env) (r : Restrictions) (ident : String)
    (hU : r.noUnset = false) (hE : r.noEmpty = false) :
    ∃ s, substFallback env r ident = .ok s := by
  rw [substFallback]
  split
  · exact ⟨_, rfl⟩
  · exact variableString_ok env r ident hU hE

theorem nodeString_ok (env : Env) (r : Restrictions)
    (hU : r.noUnset = false) (hE : r.noEmpty = false) :
    ∀ n : Node, ∃ s, nodeString env r n = .ok s := by
  intro n
  induction n with
  | text s => exact ⟨s, rfl⟩
  | var ident => exact variableString_ok env r ident hU hE
  | subst0 expType ident =>
    rw [nodeString]
    split
    · exact patternRender_ok env r ident _ hU hE
    · exact substFallback_ok env r ident hU hE
  | subst expType ident d ih =>
    rw [nodeString]
    split
    · exact patternRender_ok env r ident _ hU hE
    · split
      · split
        · split
          · exact variableString_ok env r ident hU hE
          · exact ih
        · split
          · split
            · exact ih
            · exact ⟨_, rfl⟩
          · split
            · split
              · exact ih
              · exact ⟨_, rfl⟩
            · split
              · exact ih
              · exact substFallback_ok env r ident hU hE
      · exact substFallback_ok env r ident hU hE


theorem actionLoop_err_code (env : Env) (r : Restrictions)
    (hU : r.noUnset = false) (hE : r.noEmpty = false) :
    ∀ (fuel expT : Nat) (dflt : Option Node) (ident : String) (ts : List Item) (e : InterErr),
      actionLoop env r fuel expT dflt ident ts = .error e → e.code = "" := by
  intro fuel
  induction fuel with
  | zero =>
    intro expT dflt ident ts e h
    rw [actionLoop_zero] at h
    cases h
    rfl
  | succ f ih =>
    intro expT dflt ident ts e h
    match ts with
    | [] =>
      rw [actionLoop_nil] at h
      cases h
      rfl
    | t :: rest =>
      rw [actionLoop_cons] at h
      split at h
      · split at h <;> exact Except.noConfusion h
      · split at h
        · cases h; rfl
        · split at h
          · exact ih _ _ _ _ _ h
          · split at h
            · exact ih _ _ _ _ _ h
            · split at h
              · split at h
                · split at h
                  · split at h
                    · cases h
                      rename_i heq
                      exact ih _ _ _ _ _ heq
                    · split at h
                      · cases h
                        rename_i hns
                        obtain ⟨s, hs⟩ := nodeString_ok env r hU hE _
                        rw [hs] at hns
                        cases hns
                      · exact ih _ _ _ _ _ h
                  · exact ih _ _ _ _ _ h
                · exact ih _ _ _ _ _ h
              · exact ih _ _ _ _ _ h

theorem action_err_code (env : Env) (r : Restrictions)
    (hU : r.noUnset = false) (hE : r.noEmpty = false)
    (fuel : Nat) (ts : List Item) (e : InterErr)
    (h : action env r fuel ts = .error e) : e.code = "" := by
  match ts with
  | [] =>
    rw [action] at h
    cases h
    rfl
  | t :: rest =>
    rw [action] at h
    exact actionLoop_err_code env r hU hE _ _ _ _ _ _ h

theorem parseLoop_err_code (env : Env) (r : Restrictions)
    (hU : r.noUnset = false) (hE : r.noEmpty = false) :
    ∀ (fuel : Nat) (ts : List Item) (e : InterErr),
      (parseLoop env r fuel ts).2 = some e → e.code = "" := by
  intro fuel
  induction fuel with
  | zero =>
    intro ts e h
    rw [parseLoop_zero] at h
    cases h
    rfl
  | succ f ih =>
    intro ts e h
    match ts with
    | [] =>
      rw [parseLoop_nil] at h
      exact Option.noConfusion h
    | t :: rest =>
      rw [parseLoop_cons] at h
      split at h
      · exact Option.noConfusion h
      · split at h
        · have h2 : some (⟨t.val, ""⟩ : InterErr) = some e := h
          cases h2
          rfl
        · split at h
          · exact ih _ _ h
          · split at h
            · split at h
              · rename_i heq
                have h2 : some _ = some e := h
                cases h2
                exact action_err_code env r hU hE _ _ _ heq
              · exact ih _ _ h
            · exact ih _ _ h

theorem renderQuick_ok (env : Env) (r : Restrictions)
    (hU : r.noUnset = false) (hE : r.noEmpty = false) :
    ∀ (ns : List Node) (out : String), (renderQuick env r ns out).2 = none := by
  intro ns
  induction ns with
  | nil => intro out; rfl
  | cons n ns ih =>
    intro out
    rw [renderQuick]
    obtain ⟨s, hs⟩ := nodeString_ok env r hU hE n
    rw [hs]
    exact ih _

theorem Parse_err_code (env : Env) (r : Restrictions) (mode : Mode) (input : String)
    (hU : r.noUnset = false) (hE : r.noEmpty = false) :
    ∀ e, (Parse env r mode input).2 = some e → e.code = "" := by
  intro e h
  rw [Parse] at h
  cases mode with
  | Quick =>
    simp only at h
    cases hp : (parseLoop env r ((lex r.noDigit r.varMatcher input.toList).length + 1)
        (lex r.noDigit r.varMatcher input.toList)).2 with
    | some e2 =>
      rw [hp] at h
      have h2 : some e2 = some e := h
      cases h2
      exact parseLoop_err_code env r hU hE _ _ _ hp
    | none =>
      rw [hp] at h
      rw [renderQuick_ok env r hU hE] at h
      exact Option.noConfusion h
  | AllErrors =>
    simp only at h
    split at h
    · exact Option.noConfusion h
    · have h2 : some _ = some e := h
      cases h2
      rfl

theorem C4_keepUnset_invariant (r : Restrictions) (env : Env) (mode : Mode) (input : String)
    (h : r.keepUnset = true) :
    (New r).noUnset = false ∧ (New r).noEmpty = false ∧
    (∀ e, (Parse env (New r) mode input).2 = some e →
      e.code ≠ "NoUnset" ∧ e.code ≠ "NoEmpty") ∧
    Parse fakeEnv (New keepUnsetR) .Quick "prefix $NOTSET suffix" =
      ("prefix $NOTSET suffix", none) ∧
    Parse fakeEnv (New keepUnsetR) .Quick "prefix $\x7bNOTSET\x7d suffix" =
      ("prefix $\x7bNOTSET\x7d suffix", none) ∧
    Parse fakeEnv (New keepUnsetR) .Quick "$BAR" = ("bar", none) := by
  have hU : (New r).noUnset = false := by rw [New, h]; simp
  have hE : (New r).noEmpty = false := by rw [New, h]; simp
  refine ⟨hU, hE, ?_, by rfl, by rfl, by rfl⟩
  intro e he
  have := Parse_err_code env (New r) mode input hU hE e he
  rw [this]
  exact ⟨by decide, by decide⟩

/-- Witness for C4 at the concrete KeepUnset policy. -/
theorem C4_keepUnset_invariant_witness :
    (New keepUnsetR).noUnset = false ∧ (New keepUnsetR).noEmpty = false ∧
    Parse fakeEnv (New keepUnsetR) .Quick "$BAR" = ("bar", none) :=
  ⟨(C4_keepUnset_invariant keepUnsetR fakeEnv .Quick "$BAR" rfl).1,
   (C4_keepUnset_invariant keepUnsetR fakeEnv .Quick "$BAR" rfl).2.1,
   (C4_keepUnset_invariant keepUnsetR fakeEnv .Quick "$BAR" rfl).2.2.2.2.2⟩

/-! ### Claim C6 -/

/-- Claim C6: a nested expansion (left delimiter followed by a variable)
inside the default part of an outer substitution is evaluated immediately and
its rendered string spliced in as the text default before the outer
substitution renders (token-level statement for the schema
`$\x7bA:=$\x7bB\x7d\x7d`, any store and policy); concretely,
`$\x7bBAR:=$FOO\x7d` and `$\x7bBAR:=$\x7bFOO\x7d\x7d` with BAR unset
and FOO=foo both produce "foo". -/
theorem C6_nested_default_splice (env : Env) (r : Restrictions) (f : Nat) (a b c1 c2 c3 c4 : String)
    (rest : List Item) :
    (action env r (f+6) (⟨itemVariable, a⟩ :: ⟨itemColonEquals, c1⟩ :: ⟨itemLeftDelim, c2⟩ ::
        ⟨itemVariable, b⟩ :: ⟨itemRightDelim, c3⟩ :: ⟨itemRightDelim, c4⟩ :: rest) =
      (match nodeString env r (.subst0 0 b) with
       | .error e => .error e
       | .ok s => .ok (.subst itemColonEquals a (.text s), rest))) ∧
    Parse (NewEnv ["FOO=foo"]) relaxed .Quick "$\x7bBAR:=$FOO\x7d" = ("foo", none) ∧
    Parse (NewEnv ["FOO=foo"]) relaxed .Quick "$\x7bBAR:=$\x7bFOO\x7d\x7d" = ("foo", none) := by
  refine ⟨?_, by rfl, by rfl⟩
  rw [action]
  rw [show f + 6 = (f + 5) + 1 from rfl, actionLoop_cons]
  simp only [itemColonEquals, itemRightDelim, itemError, itemVariable, itemText, itemLeftDelim,
    Nat.reduceBEq, Bool.false_eq_true, if_false, if_true]
  rw [show f + 5 = (f + 4) + 1 from rfl, actionLoop_cons]
  simp only [itemColonEquals, itemRightDelim, itemError, itemVariable, itemText, itemLeftDelim,
    Nat.reduceBEq, Bool.false_eq_true, if_false, if_true]
  rw [show f + 4 = (f + 3) + 1 from rfl, actionLoop_cons]
  simp only [itemColonEquals, itemRightDelim, itemError, itemVariable, itemText, itemLeftDelim,
    Nat.reduceBEq, Bool.false_eq_true, if_false, if_true]
  cases hns : nodeString env r (.subst0 0 b) with
  | error e => rfl
  | ok s =>
    dsimp only
    rw [actionLoop_cons]
    simp only [itemColonEquals, itemRightDelim, itemError, itemVariable, itemText, itemLeftDelim,
      Nat.reduceBEq, Bool.false_eq_true, if_false, if_true]

/-! ### Claim C9 -/

/-- The name an entry declares: the text before its first '=' (none when the
entry has no '='). -/
def entryKey (s : String) : Option String :=
  (splitFirstEq s.toList).map (fun p => String.mk p.1)

/-- The value an entry declares: the text after its first '='. -/
def entryValue (s : String) : String :=
  match splitFirstEq s.toList with
  | some p => String.mk p.2
  | none => ""

/-- Index of the first entry declaring a given name. -/
def declIdx (k : String) : List String → Option Nat
  | [] => none
  | s :: l => if entryKey s == some k then some 0 else (declIdx k l).map (· + 1)

theorem lookup_append (l1 l2 : List (String × Nat)) (k : String) :
    (l1 ++ l2).lookup k = ((l1.lookup k).orElse (fun _ => l2.lookup k)) := by
  induction l1 with
  | nil => simp [List.lookup]
  | cons p l ih =>
    rcases p with ⟨k1, v1⟩
    by_cases h : k == k1 <;> simp [List.lookup, h, ih]

theorem envInit_lookup (k : String) : ∀ (l : List String) (i : Nat) (idxs : List (String × Nat)),
    ((envInit l i idxs).2).lookup k =
      (match idxs.lookup k with
       | some j => some j
       | none => (declIdx k l).map (· + i)) := by
  intro l
  induction l with
  | nil =>
    intro i idxs
    rw [envInit]
    cases idxs.lookup k <;> simp [declIdx]
  | cons s l ih =>
    intro i idxs
    have hmap : ∀ (o : Option Nat) (i : Nat),
        (o.map (· + 1)).map (· + i) = o.map (· + (i + 1)) := by
      intro o i
      cases o <;> simp <;> omega
    rw [envInit]
    cases hsp : splitFirstEq s.toList with
    | none =>
      have hk : entryKey s = none := by rw [entryKey, hsp]; rfl
      have hdecl : declIdx k (s :: l) = (declIdx k l).map (· + 1) := by
        rw [declIdx, hk]
        rfl
      dsimp only
      rw [ih, hdecl]
      cases hidx : idxs.lookup k with
      | some j => rfl
      | none => rw [hmap]
    | some p =>
      have hk : entryKey s = some (String.mk p.1) := by rw [entryKey, hsp]; rfl
      dsimp only
      cases hlk : (idxs.lookup (String.mk p.1)) with
      | some j0 =>
        dsimp only
        rw [ih]
        cases hidx : idxs.lookup k with
        | some j => rfl
        | none =>
          have hne : (entryKey s == some k) = false := by
            rw [hk, beq_eq_false_iff_ne]
            intro hq
            rw [Option.some.injEq] at hq
            rw [← hq] at hidx
            rw [hlk] at hidx
            exact Option.noConfusion hidx
          have hdecl : declIdx k (s :: l) = (declIdx k l).map (· + 1) := by
            rw [declIdx, hne]
            rfl
          rw [hdecl, hmap]
      | none =>
        dsimp only
        rw [ih, lookup_append]
        by_cases hkk : k = String.mk p.1
        · rw [← hkk] at hlk
          rw [hlk]
          have heq : (entryKey s == some k) = true := by
            rw [hk, hkk]
            exact beq_self_eq_true _
          rw [declIdx, heq]
          simp [Option.orElse, List.lookup, hkk]
        · have hb : (k == String.mk p.1) = false := beq_eq_false_iff_ne.mpr hkk
          have hsingle : ([(String.mk p.1, i)] : List (String × Nat)).lookup k = none := by
            simp [List.lookup, hb]
          rw [hsingle]
          cases hidx : idxs.lookup k with
          | some j => simp [Option.orElse]
          | none =>
            have hne : (entryKey s == some k) = false := by
              rw [hk, beq_eq_false_iff_ne]
              intro hq
              rw [Option.some.injEq] at hq
              exact hkk hq.symm
            have hdecl : declIdx k (s :: l) = (declIdx k l).map (· + 1) := by
              rw [declIdx, hne]
              rfl
            rw [hdecl, hmap]
            simp [Option.orElse]

theorem envInit_length : ∀ (l : List String) (i : Nat) (idxs : List (String × Nat)),
    (envInit l i idxs).1.length = l.length := by
  intro l
  induction l with
  | nil => intro i idxs; rfl
  | cons s l ih =>
    intro i idxs
    rw [envInit]
    cases hsp : splitFirstEq s.toList with
    | none => simp [ih]
    | some p =>
      obtain ⟨pk, pv⟩ := p
      dsimp only
      cases hlk : (List.lookup (String.mk pk) idxs) <;> simp [hlk, ih]

theorem envInit_preserved (k : String) : ∀ (l : List String) (i : Nat)
    (idxs : List (String × Nat)) (j : Nat),
    idxs.lookup k = none → declIdx k l = some j →
    (envInit l i idxs).1.getD j "" = l.getD j "" := by
  intro l
  induction l with
  | nil =>
    intro i idxs j _ hd
    exact Option.noConfusion hd
  | cons s l ih =>
    intro i idxs j hidx hd
    rw [envInit]
    cases hb : (entryKey s == some k) with
    | true =>
      rw [declIdx, hb, if_pos rfl] at hd
      have hj : j = 0 := by cases hd; rfl
      subst hj
      cases hsp : splitFirstEq s.toList with
      | none =>
        -- contradiction: entryKey s would be none
        rw [entryKey, hsp] at hb
        simp at hb
      | some p =>
        obtain ⟨pk, pv⟩ := p
        have hk : entryKey s = some (String.mk pk) := by rw [entryKey, hsp]; rfl
        rw [hk] at hb
        have hkk : String.mk pk = k := Option.some.inj ((beq_iff_eq).mp hb)
        dsimp only
        cases hlk : (List.lookup (String.mk pk) idxs) with
        | some j0 =>
          rw [hkk] at hlk
          rw [hlk] at hidx
          exact Option.noConfusion hidx
        | none => rfl
    | false =>
      rw [declIdx, hb] at hd
      simp only [Bool.false_eq_true, if_false] at hd
      cases hdl : declIdx k l with
      | none => rw [hdl] at hd; exact Option.noConfusion hd
      | some j1 =>
        rw [hdl] at hd
        have hj : j = j1 + 1 := by cases hd; rfl
        subst hj
        cases hsp : splitFirstEq s.toList with
        | none =>
          dsimp only
          simpa using ih (i+1) idxs j1 hidx hdl
        | some p =>
          obtain ⟨pk, pv⟩ := p
          have hk : entryKey s = some (String.mk pk) := by rw [entryKey, hsp]; rfl
          have hkne : String.mk pk ≠ k := by
            intro hq
            rw [hk, hq] at hb
            rw [beq_self_eq_true] at hb
            exact Bool.noConfusion hb
          dsimp only
          cases hlk : (List.lookup (String.mk pk) idxs) with
          | some j0 =>
            simpa using ih (i+1) idxs j1 hidx hdl
          | none =>
            have hidx2 : (idxs ++ [(String.mk pk, i)]).lookup k = none := by
              rw [lookup_append, hidx]
              have hb2 : (k == String.mk pk) = false :=
                beq_eq_false_iff_ne.mpr (fun hq => hkne hq.symm)
              simp [Option.orElse, List.lookup, hb2]
            simpa using ih (i+1) (idxs ++ [(String.mk pk, i)]) j1 hidx2 hdl

theorem declIdx_entry (k : String) : ∀ (l : List String) (j : Nat), declIdx k l = some j →
    entryKey (l.getD j "") = some k ∧
    l.find? (fun s => entryKey s == some k) = some (l.getD j "") := by
  intro l
  induction l with
  | nil => intro j hd; exact Option.noConfusion hd
  | cons s l ih =>
    intro j hd
    rw [declIdx] at hd
    cases hb : (entryKey s == some k) with
    | true =>
      rw [hb, if_pos rfl] at hd
      have hj : j = 0 := by cases hd; rfl
      subst hj
      refine ⟨(beq_iff_eq).mp hb, ?_⟩
      rw [List.find?]
      rw [hb]
      rfl
    | false =>
      rw [hb] at hd
      simp only [Bool.false_eq_true, if_false] at hd
      cases hdl : declIdx k l with
      | none => rw [hdl] at hd; exact Option.noConfusion hd
      | some j1 =>
        rw [hdl] at hd
        have hj : j = j1 + 1 := by cases hd; rfl
        subst hj
        obtain ⟨h1, h2⟩ := ih j1 hdl
        refine ⟨by simpa using h1, ?_⟩
        rw [List.find?, hb]
        simpa using h2

theorem declIdx_none_find (k : String) : ∀ (l : List String), declIdx k l = none →
    l.find? (fun s => entryKey s == some k) = none := by
  intro l
  induction l with
  | nil => intro _; rfl
  | cons s l ih =>
    intro hd
    rw [declIdx] at hd
    cases hb : (entryKey s == some k) with
    | true => rw [hb, if_pos rfl] at hd; exact Option.noConfusion hd
    | false =>
      rw [hb] at hd
      simp only [Bool.false_eq_true, if_false] at hd
      rw [List.find?, hb]
      cases hdl : declIdx k l with
      | some j => rw [hdl] at hd; simp at hd
      | none => simpa using ih hdl

theorem declIdx_isSome_any (k : String) : ∀ (l : List String),
    (declIdx k l).isSome = l.any (fun s => entryKey s == some k) := by
  intro l
  induction l with
  | nil => rfl
  | cons s l ih =>
    rw [declIdx]
    cases hb : (entryKey s == some k) with
    | true => simp [hb]
    | false => simp [hb, ih]

/-- Claim C9: for every bulk entry list, `Has name` is true exactly when some
entry declares the name (text before its first '='), and `Get name` returns
the value of the FIRST entry declaring the name (text after its first '=');
later same-named entries are never visible through Get or Has.  Concretely, a
duplicate HOME entry is invisible and blanked in place. -/
theorem C9_env_first_wins (entries : List String) (name : String) :
    (NewEnv entries).Has name = entries.any (fun s => entryKey s == some name) ∧
    ((NewEnv entries).Get name =
      (match entries.find? (fun s => entryKey s == some name) with
       | some s => entryValue s
       | none => "")) ∧
    (NewEnv ["HOME=/home/user", "PATH=/usr/bin", "HOME=/duplicate"]).Get "HOME" = "/home/user" ∧
    (NewEnv ["HOME=/home/user", "HOME=/duplicate"]).env = ["HOME=/home/user", ""] := by
  have hlu : ((envInit entries 0 []).2).lookup name = declIdx name entries := by
    have h0 := envInit_lookup name entries 0 []
    have hnil : (([] : List (String × Nat)).lookup name) = none := rfl
    rw [hnil] at h0
    rw [h0]
    cases declIdx name entries <;> simp
  refine ⟨?_, ?_, by rfl, by rfl⟩
  · show ((envInit entries 0 []).2.lookup name).isSome = _
    rw [hlu]
    exact declIdx_isSome_any name entries
  · simp only [NewEnv, Env.Get]
    rw [hlu]
    cases hd : declIdx name entries with
    | none =>
      rw [declIdx_none_find name entries hd]
    | some j =>
      obtain ⟨hk, hfind⟩ := declIdx_entry name entries j hd
      rw [hfind]
      have hpres := envInit_preserved name entries 0 [] j rfl hd
      dsimp only
      rw [hpres]
      rw [entryValue]
      cases hsp : splitFirstEq (entries.getD j "").toList with
      | none =>
        rw [entryKey, hsp] at hk
      | some p =>
        obtain ⟨pk, pv⟩ := p
        rfl



/-! ### One-step unfolding lemmas for the scanner -/

theorem lexRun_zero (noDigit : Bool) (matcher : Option (String → Bool))
    (st : LexFn) (pending sinceLast rest : List Char) (depth : Int) :
    lexRun noDigit matcher 0 st pending sinceLast rest depth = [] := rfl

theorem lexRun_text_step (noDigit : Bool) (matcher : Option (String → Bool))
    (fuel : Nat) (pending sinceLast rest : List Char) (depth : Int) :
    lexRun noDigit matcher (fuel+1) .text pending sinceLast rest depth =
      (
    -- lex.go `lexText`
    match rest with
    | [] =>
      (if pending.isEmpty then [] else [⟨itemText, String.mk pending⟩]) ++ [⟨itemEOF, ""⟩]
    | c :: rest1 =>
      if c == '$' then
        let flushed : List Item :=
          if pending.isEmpty then [] else [⟨itemText, String.mk pending⟩]
        let sl1 : List Char := (if pending.isEmpty then sinceLast else pending) ++ ['$']
        flushed ++
          (match rest1 with
           | [] =>
             -- peek is EOF: no case matches, the loop then reads EOF and stops
             [⟨itemText, "$"⟩, ⟨itemEOF, ""⟩]
           | r2 :: rest2 =>
             if noDigit && r2.isDigit then
               -- ignore variable starting with digit like $1
               ⟨itemText, String.mk ['$', r2]⟩ ::
                 lexRun noDigit matcher fuel .text [] ['$', r2] rest2 depth
             else if r2 == '$' then
               -- escape: drop the first dollar, emit the second as text
               ⟨itemText, "$"⟩ :: lexRun noDigit matcher fuel .text [] ['$'] rest2 depth
             else if r2 == '{' then
               match rest2 with
               | [] =>
                 ⟨itemLeftDelim, "$\x7b"⟩ ::
                   lexRun noDigit matcher fuel .op [] ['$', '{'] [] (depth + 1)
               | r3 :: rest3 =>
                 if noDigit && r3.isDigit then
                   -- ignore variable starting with digit like $\x7b1\x7d
                   ⟨itemText, String.mk ['$', '{', r3]⟩ ::
                     lexRun noDigit matcher fuel .text [] ['$', '{', r3] rest3 depth
                 else
                   ⟨itemLeftDelim, "$\x7b"⟩ ::
                     lexRun noDigit matcher fuel .op [] ['$', '{'] rest2 (depth + 1)
             else if isAlphaNumeric r2 then
               lexRun noDigit matcher fuel .var ['$'] sl1 rest1 depth
             else
               lexRun noDigit matcher fuel .text ['$'] sl1 rest1 depth)
      else
        lexRun noDigit matcher fuel .text (pending ++ [c]) (sinceLast ++ [c]) rest1 depth
      ) := rfl

theorem lexRun_var_step (noDigit : Bool) (matcher : Option (String → Bool))
    (fuel : Nat) (pending sinceLast rest : List Char) (depth : Int) :
    lexRun noDigit matcher (fuel+1) .var pending sinceLast rest depth =
      (
    -- lex.go `lexVariable`: scan the maximal alphanumeric run
    match rest with
    | [] => lexRun noDigit matcher fuel .varDone pending sinceLast [] depth
    | c :: rest1 =>
      if isAlphaNumeric c then
        lexRun noDigit matcher fuel .var (pending ++ [c]) (sinceLast ++ [c]) rest1 depth
      else
        lexRun noDigit matcher fuel .varDone pending sinceLast rest depth
      ) := rfl

theorem lexRun_varDone_step (noDigit : Bool) (matcher : Option (String → Bool))
    (fuel : Nat) (pending sinceLast rest : List Char) (depth : Int) :
    lexRun noDigit matcher (fuel+1) .varDone pending sinceLast rest depth =
      (
    -- lex.go `lexVariable` after the run: strip a leading dollar, apply the
    -- underscore rule and the matcher, emit text or variable
    let v : List Char :=
      match pending with
      | p0 :: ptail => if p0 == '$' then ptail else pending
      | [] => pending
    let vs : String := String.mk v
    let rejected : Bool :=
      vs == "_" || (match matcher with | some m => !(m vs) | none => false)
    let it : Item := ⟨if rejected then itemText else itemVariable, String.mk pending⟩
    if depth > 0 then
      it :: lexRun noDigit matcher fuel .op [] pending rest depth
    else
      it :: lexRun noDigit matcher fuel .text [] pending rest depth
      ) := rfl

theorem lexRun_op_step (noDigit : Bool) (matcher : Option (String → Bool))
    (fuel : Nat) (pending sinceLast rest : List Char) (depth : Int) :
    lexRun noDigit matcher (fuel+1) .op pending sinceLast rest depth =
      (
    -- lex.go `lexSubstitutionOperator`
    match rest with
    | [] => [⟨itemError, "closing brace expected"⟩]
    | c :: rest1 =>
      if c == '}' then
        ⟨itemRightDelim, String.mk (pending ++ ['}'])⟩ ::
          (if depth - 1 > 0 then
            lexRun noDigit matcher fuel .subst [] (pending ++ ['}']) rest1 (depth - 1)
          else
            lexRun noDigit matcher fuel .text [] (pending ++ ['}']) rest1 (depth - 1))
      else if isEndOfLine c then
        [⟨itemError, "closing brace expected"⟩]
      else if isAlphaNumeric c && startsWithDollarBrace (sinceLast ++ c :: rest1) then
        lexRun noDigit matcher fuel .var (pending ++ [c]) (sinceLast ++ [c]) rest1 depth
      else if c == '+' then
        ⟨itemPlus, String.mk (pending ++ ['+'])⟩ ::
          lexRun noDigit matcher fuel .subst [] (pending ++ ['+']) rest1 depth
      else if c == '-' then
        ⟨itemDash, String.mk (pending ++ ['-'])⟩ ::
          lexRun noDigit matcher fuel .subst [] (pending ++ ['-']) rest1 depth
      else if c == '=' then
        ⟨itemEquals, String.mk (pending ++ ['='])⟩ ::
          lexRun noDigit matcher fuel .subst [] (pending ++ ['=']) rest1 depth
      else if c == '^' then
        match rest1 with
        | r2 :: rest2 =>
          if r2 == '^' then
            ⟨itemCaretCaret, String.mk (pending ++ ['^', '^'])⟩ ::
              lexRun noDigit matcher fuel .subst [] (pending ++ ['^', '^']) rest2 depth
          else
            ⟨itemText, String.mk (pending ++ ['^'])⟩ ::
              lexRun noDigit matcher fuel .subst [] (pending ++ ['^']) (r2 :: rest2) depth
        | [] =>
          ⟨itemText, String.mk (pending ++ ['^'])⟩ ::
            lexRun noDigit matcher fuel .subst [] (pending ++ ['^']) [] depth
      else if c == ',' then
        match rest1 with
        | r2 :: rest2 =>
          if r2 == ',' then
            ⟨itemCommaComma, String.mk (pending ++ [',', ','])⟩ ::
              lexRun noDigit matcher fuel .subst [] (pending ++ [',', ',']) rest2 depth
          else
            ⟨itemText, String.mk (pending ++ [','])⟩ ::
              lexRun noDigit matcher fuel .subst [] (pending ++ [',']) (r2 :: rest2) depth
        | [] =>
          ⟨itemText, String.mk (pending ++ [','])⟩ ::
            lexRun noDigit matcher fuel .subst [] (pending ++ [',']) [] depth
      else if c == ':' then
        match rest1 with
        | x :: rest2 =>
          if x == '-' then
            ⟨itemColonDash, String.mk (pending ++ [':', '-'])⟩ ::
              lexRun noDigit matcher fuel .subst [] (pending ++ [':', '-']) rest2 depth
          else if x == '=' then
            ⟨itemColonEquals, String.mk (pending ++ [':', '='])⟩ ::
              lexRun noDigit matcher fuel .subst [] (pending ++ [':', '=']) rest2 depth
          else if x == '+' then
            ⟨itemColonPlus, String.mk (pending ++ [':', '+'])⟩ ::
              lexRun noDigit matcher fuel .subst [] (pending ++ [':', '+']) rest2 depth
          else
            -- the inner switch consumed a character but emitted nothing
            lexRun noDigit matcher fuel .subst (pending ++ [':', x]) (sinceLast ++ [':', x]) rest2 depth
        | [] =>
          lexRun noDigit matcher fuel .subst (pending ++ [':']) (sinceLast ++ [':']) [] depth
      else
        -- no case matched: the character stays pending
        lexRun noDigit matcher fuel .subst (pending ++ [c]) (sinceLast ++ [c]) rest1 depth
      ) := rfl

theorem lexRun_subst_step (noDigit : Bool) (matcher : Option (String → Bool))
    (fuel : Nat) (pending sinceLast rest : List Char) (depth : Int) :
    lexRun noDigit matcher (fuel+1) .subst pending sinceLast rest depth =
      (
    -- lex.go `lexSubstitution`
    match rest with
    | [] => [⟨itemError, "closing brace expected"⟩]
    | c :: rest1 =>
      if c == '}' then
        ⟨itemRightDelim, String.mk (pending ++ ['}'])⟩ ::
          (if depth - 1 > 0 then
            lexRun noDigit matcher fuel .subst [] (pending ++ ['}']) rest1 (depth - 1)
          else
            lexRun noDigit matcher fuel .text [] (pending ++ ['}']) rest1 (depth - 1))
      else if isEndOfLine c then
        [⟨itemError, "closing brace expected"⟩]
      else if (isAlphaNumeric c && startsWithDollarBrace (sinceLast ++ c :: rest1)) || c == '$' then
        -- the alphanumeric case falls through into the dollar case
        match rest1 with
        | r1 :: rest2 =>
          if r1 == '{' then
            match rest2 with
            | r2 :: rest3 =>
              if noDigit && r2.isDigit then
                ⟨itemText, String.mk (pending ++ [c, '{', r2])⟩ ::
                  lexRun noDigit matcher fuel .subst [] (pending ++ [c, '{', r2]) rest3 depth
              else
                ⟨itemLeftDelim, String.mk (pending ++ [c, '{'])⟩ ::
                  lexRun noDigit matcher fuel .op [] (pending ++ [c, '{']) rest2 (depth + 1)
            | [] =>
              ⟨itemLeftDelim, String.mk (pending ++ [c, '{'])⟩ ::
                lexRun noDigit matcher fuel .op [] (pending ++ [c, '{']) [] (depth + 1)
          else
            lexRun noDigit matcher fuel .var (pending ++ [c]) (sinceLast ++ [c]) (r1 :: rest2) depth
        | [] =>
          lexRun noDigit matcher fuel .var (pending ++ [c]) (sinceLast ++ [c]) [] depth
      else
        ⟨itemText, String.mk (pending ++ [c])⟩ ::
          lexRun noDigit matcher fuel .subst [] (pending ++ [c]) rest1 depth
      ) := rfl

/-! ### Fuel and sinceLast congruence for the scanner -/

/-- Fuel requirement of each scanner state: a safe lower bound on fuel,
beyond the three steps per remaining character, for `lexRun` to finish. -/
def lexReq : LexFn → Nat
  | .text => 1
  | .var => 3
  | .varDone => 2
  | .op => 1
  | .subst => 1

theorem cons_congr {α : Type} (x : α) {l1 l2 : List α} (h : l1 = l2) : x :: l1 = x :: l2 := by
  rw [h]

/-- The scanner result does not depend on the exact fuel, provided the fuel is
at least 3 * rest.length + lexReq st, nor on the sinceLast window except in
the op and subst states (where the HasPrefix checks consult it). -/
theorem lexRun_congr (noDigit : Bool) (matcher : Option (String → Bool)) :
    forall (f1 f2 : Nat) (st : LexFn) (pending sl1 sl2 rest : List Char) (depth : Int),
      3 * rest.length + lexReq st ≤ f1 → 3 * rest.length + lexReq st ≤ f2 ->
      ((st = .op ∨ st = .subst) → sl1 = sl2) ->
      lexRun noDigit matcher f1 st pending sl1 rest depth =
        lexRun noDigit matcher f2 st pending sl2 rest depth := by
  intro f1
  induction f1 with
  | zero =>
    intro f2 st pending sl1 sl2 rest depth h1 h2 hsl
    cases st <;> simp [lexReq] at h1
  | succ f ih =>
    intro f2 st pending sl1 sl2 rest depth h1 h2 hsl
    cases f2 with
    | zero => cases st <;> simp [lexReq] at h2
    | succ g =>
      cases st with
      | op =>
        have hs : sl1 = sl2 := hsl (Or.inl rfl)
        subst hs
        cases rest with
        | nil => rfl
        | cons c rest1 =>
          rw [lexRun_op_step, lexRun_op_step]
          dsimp only
          by_cases c1 : (c == '}') = true
          · rw [if_pos c1, if_pos c1]
            repeat' split
            all_goals
              first
              | rfl
              | (refine ih g _ _ _ _ _ _ ?_ ?_ ?_ <;>
                  first
                  | (simp only [lexReq, List.length_cons, List.length_nil] at *; omega)
                  | exact fun _ => rfl
                  | (rintro (h | h) <;> exact LexFn.noConfusion h))
              | (refine cons_congr _ (ih g _ _ _ _ _ _ ?_ ?_ ?_) <;>
                  first
                  | (simp only [lexReq, List.length_cons, List.length_nil] at *; omega)
                  | exact fun _ => rfl
                  | (rintro (h | h) <;> exact LexFn.noConfusion h))
              | (refine congrArg (List.append _) (cons_congr _ (ih g _ _ _ _ _ _ ?_ ?_ ?_)) <;>
                  first
                  | (simp only [lexReq, List.length_cons, List.length_nil] at *; omega)
                  | exact fun _ => rfl
                  | (rintro (h | h) <;> exact LexFn.noConfusion h))
          · rw [if_neg c1, if_neg c1]
            by_cases c2 : isEndOfLine c = true
            · rw [if_pos c2, if_pos c2]
            · rw [if_neg c2, if_neg c2]
              by_cases c3 : (isAlphaNumeric c && startsWithDollarBrace (sl1 ++ c :: rest1)) = true
              · rw [if_pos c3, if_pos c3]
                first
                | rfl
                | (refine ih g _ _ _ _ _ _ ?_ ?_ ?_ <;>
                    first
                    | (simp only [lexReq, List.length_cons, List.length_nil] at *; omega)
                    | exact fun _ => rfl
                    | (rintro (h | h) <;> exact LexFn.noConfusion h))
                | (refine cons_congr _ (ih g _ _ _ _ _ _ ?_ ?_ ?_) <;>
                    first
                    | (simp only [lexReq, List.length_cons, List.length_nil] at *; omega)
                    | exact fun _ => rfl
                    | (rintro (h | h) <;> exact LexFn.noConfusion h))
                | (refine congrArg (List.append _) (cons_congr _ (ih g _ _ _ _ _ _ ?_ ?_ ?_)) <;>
                    first
                    | (simp only [lexReq, List.length_cons, List.length_nil] at *; omega)
                    | exact fun _ => rfl
                    | (rintro (h | h) <;> exact LexFn.noConfusion h))
              · rw [if_neg c3, if_neg c3]
                by_cases c4 : (c == '+') = true
                · rw [if_pos c4, if_pos c4]
                  first
                  | rfl
                  | (refine ih g _ _ _ _ _ _ ?_ ?_ ?_ <;>
                      first
                      | (simp only [lexReq, List.length_cons, List.length_nil] at *; omega)
                      | exact fun _ => rfl
                      | (rintro (h | h) <;> exact LexFn.noConfusion h))
                  | (refine cons_congr _ (ih g _ _ _ _ _ _ ?_ ?_ ?_) <;>
                      first
                      | (simp only [lexReq, List.length_cons, List.length_nil] at *; omega)
                      | exact fun _ => rfl
                      | (rintro (h | h) <;> exact LexFn.noConfusion h))
                  | (refine congrArg (List.append _) (cons_congr _ (ih g _ _ _ _ _ _ ?_ ?_ ?_)) <;>
                      first
                      | (simp only [lexReq, List.length_cons, List.length_nil] at *; omega)
                      | exact fun _ => rfl
                      | (rintro (h | h) <;> exact LexFn.noConfusion h))
                · rw [if_neg c4, if_neg c4]
                  by_cases c5 : (c == '-') = true
                  · rw [if_pos c5, if_pos c5]
                    first
                    | rfl
                    | (refine ih g _ _ _ _ _ _ ?_ ?_ ?_ <;>
                        first
                        | (simp only [lexReq, List.length_cons, List.length_nil] at *; omega)
                        | exact fun _ => rfl
                        | (rintro (h | h) <;> exact LexFn.noConfusion h))
                    | (refine cons_congr _ (ih g _ _ _ _ _ _ ?_ ?_ ?_) <;>
                        first
                        | (simp only [lexReq, List.length_cons, List.length_nil] at *; omega)
                        | exact fun _ => rfl
                        | (rintro (h | h) <;> exact LexFn.noConfusion h))
                    | (refine congrArg (List.append _) (cons_congr _ (ih g _ _ _ _ _ _ ?_ ?_ ?_)) <;>
                        first
                        | (simp only [lexReq, List.length_cons, List.length_nil] at *; omega)
                        | exact fun _ => rfl
                        | (rintro (h | h) <;> exact LexFn.noConfusion h))
                  · rw [if_neg c5, if_neg c5]
                    by_cases c6 : (c == '=') = true
                    · rw [if_pos c6, if_pos c6]
                      first
                      | rfl
                      | (refine ih g _ _ _ _ _ _ ?_ ?_ ?_ <;>
                          first
                          | (simp only [lexReq, List.length_cons, List.length_nil] at *; omega)
                          | exact fun _ => rfl
                          | (rintro (h | h) <;> exact LexFn.noConfusion h))
                      | (refine cons_congr _ (ih g _ _ _ _ _ _ ?_ ?_ ?_) <;>
                          first
                          | (simp only [lexReq, List.length_cons, List.length_nil] at *; omega)
                          | exact fun _ => rfl
                          | (rintro (h | h) <;> exact LexFn.noConfusion h))
                      | (refine congrArg (List.append _) (cons_congr _ (ih g _ _ _ _ _ _ ?_ ?_ ?_)) <;>
                          first
                          | (simp only [lexReq, List.length_cons, List.length_nil] at *; omega)
                          | exact fun _ => rfl
                          | (rintro (h | h) <;> exact LexFn.noConfusion h))
                    · rw [if_neg c6, if_neg c6]
                      by_cases c7 : (c == '^') = true
                      · rw [if_pos c7, if_pos c7]
                        repeat' split
                        all_goals
                          first
                          | rfl
                          | (refine ih g _ _ _ _ _ _ ?_ ?_ ?_ <;>
                              first
                              | (simp only [lexReq, List.length_cons, List.length_nil] at *; omega)
                              | exact fun _ => rfl
                              | (rintro (h | h) <;> exact LexFn.noConfusion h))
                          | (refine cons_congr _ (ih g _ _ _ _ _ _ ?_ ?_ ?_) <;>
                              first
                              | (simp only [lexReq, List.length_cons, List.length_nil] at *; omega)
                              | exact fun _ => rfl
                              | (rintro (h | h) <;> exact LexFn.noConfusion h))
                          | (refine congrArg (List.append _) (cons_congr _ (ih g _ _ _ _ _ _ ?_ ?_ ?_)) <;>
                              first
                              | (simp only [lexReq, List.length_cons, List.length_nil] at *; omega)
                              | exact fun _ => rfl
                              | (rintro (h | h) <;> exact LexFn.noConfusion h))
                      · rw [if_neg c7, if_neg c7]
                        by_cases c8 : (c == ',') = true
                        · rw [if_pos c8, if_pos c8]
                          repeat' split
                          all_goals
                            first
                            | rfl
                            | (refine ih g _ _ _ _ _ _ ?_ ?_ ?_ <;>
                                first
                                | (simp only [lexReq, List.length_cons, List.length_nil] at *; omega)
                                | exact fun _ => rfl
                                | (rintro (h | h) <;> exact LexFn.noConfusion h))
                            | (refine cons_congr _ (ih g _ _ _ _ _ _ ?_ ?_ ?_) <;>
                                first
                                | (simp only [lexReq, List.length_cons, List.length_nil] at *; omega)
                                | exact fun _ => rfl
                                | (rintro (h | h) <;> exact LexFn.noConfusion h))
                            | (refine congrArg (List.append _) (cons_congr _ (ih g _ _ _ _ _ _ ?_ ?_ ?_)) <;>
                                first
                                | (simp only [lexReq, List.length_cons, List.length_nil] at *; omega)
                                | exact fun _ => rfl
                                | (rintro (h | h) <;> exact LexFn.noConfusion h))
                        · rw [if_neg c8, if_neg c8]
                          by_cases c9 : (c == ':') = true
                          · rw [if_pos c9, if_pos c9]
                            repeat' split
                            all_goals
                              first
                              | rfl
                              | (refine ih g _ _ _ _ _ _ ?_ ?_ ?_ <;>
                                  first
                                  | (simp only [lexReq, List.length_cons, List.length_nil] at *; omega)
                                  | exact fun _ => rfl
                                  | (rintro (h | h) <;> exact LexFn.noConfusion h))
                              | (refine cons_congr _ (ih g _ _ _ _ _ _ ?_ ?_ ?_) <;>
                                  first
                                  | (simp only [lexReq, List.length_cons, List.length_nil] at *; omega)
                                  | exact fun _ => rfl
                                  | (rintro (h | h) <;> exact LexFn.noConfusion h))
                              | (refine congrArg (List.append _) (cons_congr _ (ih g _ _ _ _ _ _ ?_ ?_ ?_)) <;>
                                  first
                                  | (simp only [lexReq, List.length_cons, List.length_nil] at *; omega)
                                  | exact fun _ => rfl
                                  | (rintro (h | h) <;> exact LexFn.noConfusion h))
                          · rw [if_neg c9, if_neg c9]
                            first
                            | rfl
                            | (refine ih g _ _ _ _ _ _ ?_ ?_ ?_ <;>
                                first
                                | (simp only [lexReq, List.length_cons, List.length_nil] at *; omega)
                                | exact fun _ => rfl
                                | (rintro (h | h) <;> exact LexFn.noConfusion h))
                            | (refine cons_congr _ (ih g _ _ _ _ _ _ ?_ ?_ ?_) <;>
                                first
                                | (simp only [lexReq, List.length_cons, List.length_nil] at *; omega)
                                | exact fun _ => rfl
                                | (rintro (h | h) <;> exact LexFn.noConfusion h))
                            | (refine congrArg (List.append _) (cons_congr _ (ih g _ _ _ _ _ _ ?_ ?_ ?_)) <;>
                                first
                                | (simp only [lexReq, List.length_cons, List.length_nil] at *; omega)
                                | exact fun _ => rfl
                                | (rintro (h | h) <;> exact LexFn.noConfusion h))
      | subst =>
        have hs : sl1 = sl2 := hsl (Or.inr rfl)
        subst hs
        rw [lexRun_subst_step, lexRun_subst_step]
        try dsimp only
        repeat' split
        all_goals
          first
          | rfl
          | (refine ih g _ _ _ _ _ _ ?_ ?_ ?_ <;>
              first
              | (simp only [lexReq, List.length_cons, List.length_nil] at *; omega)
              | exact fun _ => rfl
              | (rintro (h | h) <;> exact LexFn.noConfusion h))
          | (refine cons_congr _ (ih g _ _ _ _ _ _ ?_ ?_ ?_) <;>
              first
              | (simp only [lexReq, List.length_cons, List.length_nil] at *; omega)
              | exact fun _ => rfl
              | (rintro (h | h) <;> exact LexFn.noConfusion h))
          | (refine congrArg (List.append _) (cons_congr _ (ih g _ _ _ _ _ _ ?_ ?_ ?_)) <;>
              first
              | (simp only [lexReq, List.length_cons, List.length_nil] at *; omega)
              | exact fun _ => rfl
              | (rintro (h | h) <;> exact LexFn.noConfusion h))
      | text =>
        rw [lexRun_text_step, lexRun_text_step]
        try dsimp only
        repeat' split
        all_goals
          first
          | rfl
          | (refine ih g _ _ _ _ _ _ ?_ ?_ ?_ <;>
              first
              | (simp only [lexReq, List.length_cons, List.length_nil] at *; omega)
              | exact fun _ => rfl
              | (rintro (h | h) <;> exact LexFn.noConfusion h))
          | (refine cons_congr _ (ih g _ _ _ _ _ _ ?_ ?_ ?_) <;>
              first
              | (simp only [lexReq, List.length_cons, List.length_nil] at *; omega)
              | exact fun _ => rfl
              | (rintro (h | h) <;> exact LexFn.noConfusion h))
          | (refine congrArg (List.append _) (cons_congr _ (ih g _ _ _ _ _ _ ?_ ?_ ?_)) <;>
              first
              | (simp only [lexReq, List.length_cons, List.length_nil] at *; omega)
              | exact fun _ => rfl
              | (rintro (h | h) <;> exact LexFn.noConfusion h))
      | var =>
        rw [lexRun_var_step, lexRun_var_step]
        try dsimp only
        repeat' split
        all_goals
          first
          | rfl
          | (refine ih g _ _ _ _ _ _ ?_ ?_ ?_ <;>
              first
              | (simp only [lexReq, List.length_cons, List.length_nil] at *; omega)
              | exact fun _ => rfl
              | (rintro (h | h) <;> exact LexFn.noConfusion h))
          | (refine cons_congr _ (ih g _ _ _ _ _ _ ?_ ?_ ?_) <;>
              first
              | (simp only [lexReq, List.length_cons, List.length_nil] at *; omega)
              | exact fun _ => rfl
              | (rintro (h | h) <;> exact LexFn.noConfusion h))
          | (refine congrArg (List.append _) (cons_congr _ (ih g _ _ _ _ _ _ ?_ ?_ ?_)) <;>
              first
              | (simp only [lexReq, List.length_cons, List.length_nil] at *; omega)
              | exact fun _ => rfl
              | (rintro (h | h) <;> exact LexFn.noConfusion h))
      | varDone =>
        rw [lexRun_varDone_step, lexRun_varDone_step]
        try dsimp only
        repeat' split
        all_goals
          first
          | rfl
          | (refine ih g _ _ _ _ _ _ ?_ ?_ ?_ <;>
              first
              | (simp only [lexReq, List.length_cons, List.length_nil] at *; omega)
              | exact fun _ => rfl
              | (rintro (h | h) <;> exact LexFn.noConfusion h))
          | (refine cons_congr _ (ih g _ _ _ _ _ _ ?_ ?_ ?_) <;>
              first
              | (simp only [lexReq, List.length_cons, List.length_nil] at *; omega)
              | exact fun _ => rfl
              | (rintro (h | h) <;> exact LexFn.noConfusion h))
          | (refine congrArg (List.append _) (cons_congr _ (ih g _ _ _ _ _ _ ?_ ?_ ?_)) <;>
              first
              | (simp only [lexReq, List.length_cons, List.length_nil] at *; omega)
              | exact fun _ => rfl
              | (rintro (h | h) <;> exact LexFn.noConfusion h))

/-! ### Claim C8: the escape law -/

/-- Scanning an input that begins with the two-character escape emits one
literal dollar Text item and rescans the remainder from the plain-text state:
the characters after the consumed escape are ordinary text. -/
theorem lex_escape (nd : Bool) (m : Option (String → Bool)) (T : List Char) :
    lex nd m ('$' :: '$' :: T) = ⟨itemText, "$"⟩ :: lex nd m T := by
  have h1 : lex nd m ('$' :: '$' :: T) =
      ⟨itemText, "$"⟩ :: lexRun nd m (3 * T.length + 8) .text [] ['$'] T 0 := by
    cases nd <;> rfl
  rw [h1]
  refine cons_congr _ ?_
  show lexRun nd m (3 * T.length + 8) .text [] ['$'] T 0 =
    lexRun nd m (3 * T.length + 3) .text [] [] T 0
  exact lexRun_congr nd m _ _ .text [] ['$'] [] T 0
    (by simp only [lexReq]; omega) (by simp only [lexReq]; omega)
    (by rintro (h | h) <;> exact LexFn.noConfusion h)

/-- Quick-mode rendering with a non-empty accumulator: the accumulated prefix
is prepended to the final output on success and discarded on failure. -/
theorem renderQuick_prepend (env : Env) (r : Restrictions) :
    ∀ (ns : List Node) (pre acc : String),
      renderQuick env r ns (pre ++ acc) =
        (match renderQuick env r ns acc with
         | (o, none) => (pre ++ o, none)
         | (_, some e) => ("", some e)) := by
  intro ns
  induction ns with
  | nil => intro pre acc; rfl
  | cons n ns ih =>
    intro pre acc
    simp only [renderQuick]
    cases h : nodeString env r n with
    | error e => rfl
    | ok s =>
      dsimp only
      rw [String.append_assoc]
      exact ih pre (acc ++ s)

/-- Parsing an input prefixed with the escape: on success the output gains a
leading literal dollar, and any failure of the unprefixed input is reproduced
exactly. -/
theorem parse_escape (env : Env) (r : Restrictions) (mode : Mode) (T : String) :
    Parse env r mode ("$$" ++ T) =
      (match Parse env r mode T with
       | (o, none) => ("$" ++ o, none)
       | (_, some e) => ("", some e)) := by
  have hlex : lex r.noDigit r.varMatcher (("$$" ++ T).toList) =
      ⟨itemText, "$"⟩ :: lex r.noDigit r.varMatcher T.toList :=
    lex_escape r.noDigit r.varMatcher T.toList
  simp only [Parse, hlex]
  have hstep : parseLoop env r
        ((Item.mk itemText "$" :: lex r.noDigit r.varMatcher T.toList).length + 1)
        (Item.mk itemText "$" :: lex r.noDigit r.varMatcher T.toList) =
      (Node.text "$" ::
        (parseLoop env r ((lex r.noDigit r.varMatcher T.toList).length + 1)
          (lex r.noDigit r.varMatcher T.toList)).1,
       (parseLoop env r ((lex r.noDigit r.varMatcher T.toList).length + 1)
          (lex r.noDigit r.varMatcher T.toList)).2) := rfl
  rw [hstep]
  cases hq : parseLoop env r ((lex r.noDigit r.varMatcher T.toList).length + 1)
      (lex r.noDigit r.varMatcher T.toList) with
  | mk nodes perr =>
    dsimp only
    cases mode with
    | Quick =>
      cases perr with
      | some e => rfl
      | none =>
        dsimp only
        show renderQuick env r (Node.text "$" :: nodes) "" = _
        simp only [renderQuick]
        show renderQuick env r nodes ("$" ++ "") = _
        rw [renderQuick_prepend]
    | AllErrors =>
      cases perr with
      | some e =>
        dsimp only
        rw [renderAllErrors_eq, renderAllErrors_eq]
        dsimp only
        simp only [nodeOut, nodeErr, concatAll, List.filterMap_cons]
        rfl
      | none =>
        dsimp only
        rw [renderAllErrors_eq, renderAllErrors_eq]
        dsimp only
        simp only [nodeOut, nodeErr, concatAll, List.filterMap_cons]
        cases hfm : nodes.filterMap (nodeErr env r) with
        | nil => rfl
        | cons e es => rfl

/-- Claim C8: for every text T, the input formed by the two-character escape
followed by T scans to a literal dollar Text item followed by the scan of T,
substitutes to the literal dollar followed by the substitution of T whenever T
substitutes without error, reproduces the errors of T exactly, and in
particular the repository example yields its expected output. -/
theorem C8_escape_law (env : Env) (r : Restrictions) (mode : Mode) (T : String)
    (nd : Bool) (m : Option (String → Bool)) :
    lex nd m ('$' :: '$' :: T.toList) = ⟨itemText, "$"⟩ :: lex nd m T.toList ∧
    ((Parse env r mode T).2 = none →
      Parse env r mode ("$$" ++ T) = ("$" ++ (Parse env r mode T).1, none)) ∧
    (Parse env r mode ("$$" ++ T)).2 = (Parse env r mode T).2 ∧
    Parse fakeEnv relaxed .Quick "FOO $$BAR BAZ" = ("FOO $BAR BAZ", none) := by
  refine ⟨lex_escape nd m T.toList, ?_, ?_, by rfl⟩
  · intro h
    cases hPT : Parse env r mode T with
    | mk o pe =>
      rw [hPT] at h
      dsimp only at h
      subst h
      rw [parse_escape, hPT]
  · rw [parse_escape]
    cases hPT : Parse env r mode T with
    | mk o pe =>
      cases pe with
      | none => rfl
      | some e => rfl

theorem C8_escape_law_witness :
    (Parse fakeEnv relaxed .Quick "BAR BAZ").2 = none ∧
    Parse fakeEnv relaxed .Quick ("$$" ++ "BAR BAZ") =
      ("$" ++ (Parse fakeEnv relaxed .Quick "BAR BAZ").1, none) :=
  ⟨by rfl, (C8_escape_law fakeEnv relaxed .Quick "BAR BAZ" false none).2.1 (by rfl)⟩

/-! ### Shape of the scanner output (for claim C7) -/

/-- A list of items free of Error and EOF items. -/
def goodMid (l : List Item) : Prop :=
  ∀ it, it ∈ l → it.typ ≠ itemError ∧ it.typ ≠ itemEOF

/-- The item stream ends in exactly one terminal item, either EOF or the
closing-brace scan error, and no terminal occurs before it. -/
def ShapeP (l : List Item) : Prop :=
  ∃ mid last, l = mid ++ [last] ∧ goodMid mid ∧
    (last = ⟨itemEOF, ""⟩ ∨ last = ⟨itemError, "closing brace expected"⟩)

theorem goodMid_nil : goodMid [] := by
  intro it h
  cases h

theorem goodMid_cons {x : Item} {l : List Item}
    (hx : x.typ ≠ itemError ∧ x.typ ≠ itemEOF) (h : goodMid l) : goodMid (x :: l) := by
  intro it hit
  rcases List.mem_cons.mp hit with h1 | h2
  · rw [h1]; exact hx
  · exact h it h2

theorem shape_eof : ShapeP [⟨itemEOF, ""⟩] :=
  ⟨[], ⟨itemEOF, ""⟩, rfl, goodMid_nil, Or.inl rfl⟩

theorem shape_error : ShapeP [⟨itemError, "closing brace expected"⟩] :=
  ⟨[], ⟨itemError, "closing brace expected"⟩, rfl, goodMid_nil, Or.inr rfl⟩

theorem shape_cons (x : Item) (hx : x.typ ≠ itemError ∧ x.typ ≠ itemEOF)
    {l : List Item} (h : ShapeP l) : ShapeP (x :: l) := by
  obtain ⟨mid, last, heq, hmid, hlast⟩ := h
  exact ⟨x :: mid, last, by rw [heq, List.cons_append], goodMid_cons hx hmid, hlast⟩

theorem shape_append (l1 : List Item) (h1 : goodMid l1)
    {l : List Item} (h : ShapeP l) : ShapeP (l1 ++ l) := by
  obtain ⟨mid, last, heq, hmid, hlast⟩ := h
  refine ⟨l1 ++ mid, last, by rw [heq, List.append_assoc], ?_, hlast⟩
  intro it hit
  rcases List.mem_append.mp hit with h2 | h2
  · exact h1 it h2
  · exact hmid it h2

/-- Every scanner run with sufficient fuel produces a stream of the shape
required by claim C7: non-terminal items followed by exactly one terminal,
either EOF or the closing-brace error. -/
theorem lexRun_shape (nd : Bool) (m : Option (String → Bool)) :
    ∀ (fuel : Nat) (st : LexFn) (pending sl rest : List Char) (depth : Int),
      3 * rest.length + lexReq st ≤ fuel →
      ShapeP (lexRun nd m fuel st pending sl rest depth) := by
  intro fuel
  induction fuel with
  | zero =>
    intro st pending sl rest depth hb
    cases st <;> simp [lexReq] at hb
  | succ f ih =>
    intro st pending sl rest depth hb
    cases st with
      | op =>
        cases rest with
        | nil => exact shape_error
        | cons c rest1 =>
          rw [lexRun_op_step]
          dsimp only
          by_cases c1 : (c == '}') = true
          · rw [if_pos c1]
            repeat' split
            all_goals
              first
              | exact shape_eof
              | exact shape_error
              | (refine shape_cons _ ?_ shape_eof <;> (simp [itemError, itemEOF, itemText, itemVariable, itemRightDelim, itemLeftDelim, itemPlus, itemDash, itemEquals, itemColonDash, itemColonEquals, itemColonPlus, itemCaretCaret, itemCommaComma]; done))
              | (refine shape_cons _ ?_ (shape_cons _ ?_ shape_eof) <;> (simp [itemError, itemEOF, itemText, itemVariable, itemRightDelim, itemLeftDelim, itemPlus, itemDash, itemEquals, itemColonDash, itemColonEquals, itemColonPlus, itemCaretCaret, itemCommaComma]; done))
              | (refine ih _ _ _ _ _ ?_;
                  simp only [lexReq, List.length_cons, List.length_nil] at *; omega)
              | (refine shape_cons _ ?_ (ih _ _ _ _ _ ?_) <;>
                  first
                  | (simp only [lexReq, List.length_cons, List.length_nil] at *; omega)
                  | (simp [itemError, itemEOF, itemText, itemVariable, itemRightDelim, itemLeftDelim, itemPlus, itemDash, itemEquals, itemColonDash, itemColonEquals, itemColonPlus, itemCaretCaret, itemCommaComma]; done))
              | (refine shape_cons _ ?_ (shape_cons _ ?_ (ih _ _ _ _ _ ?_)) <;>
                  first
                  | (simp only [lexReq, List.length_cons, List.length_nil] at *; omega)
                  | (simp [itemError, itemEOF, itemText, itemVariable, itemRightDelim, itemLeftDelim, itemPlus, itemDash, itemEquals, itemColonDash, itemColonEquals, itemColonPlus, itemCaretCaret, itemCommaComma]; done))
          · rw [if_neg c1]
            by_cases c2 : isEndOfLine c = true
            · rw [if_pos c2]
              exact shape_error
            · rw [if_neg c2]
              by_cases c3 : (isAlphaNumeric c && startsWithDollarBrace (sl ++ c :: rest1)) = true
              · rw [if_pos c3]
                first
                | exact shape_eof
                | exact shape_error
                | (refine shape_cons _ ?_ shape_eof <;> (simp [itemError, itemEOF, itemText, itemVariable, itemRightDelim, itemLeftDelim, itemPlus, itemDash, itemEquals, itemColonDash, itemColonEquals, itemColonPlus, itemCaretCaret, itemCommaComma]; done))
                | (refine shape_cons _ ?_ (shape_cons _ ?_ shape_eof) <;> (simp [itemError, itemEOF, itemText, itemVariable, itemRightDelim, itemLeftDelim, itemPlus, itemDash, itemEquals, itemColonDash, itemColonEquals, itemColonPlus, itemCaretCaret, itemCommaComma]; done))
                | (refine ih _ _ _ _ _ ?_;
                    simp only [lexReq, List.length_cons, List.length_nil] at *; omega)
                | (refine shape_cons _ ?_ (ih _ _ _ _ _ ?_) <;>
                    first
                    | (simp only [lexReq, List.length_cons, List.length_nil] at *; omega)
                    | (simp [itemError, itemEOF, itemText, itemVariable, itemRightDelim, itemLeftDelim, itemPlus, itemDash, itemEquals, itemColonDash, itemColonEquals, itemColonPlus, itemCaretCaret, itemCommaComma]; done))
                | (refine shape_cons _ ?_ (shape_cons _ ?_ (ih _ _ _ _ _ ?_)) <;>
                    first
                    | (simp only [lexReq, List.length_cons, List.length_nil] at *; omega)
                    | (simp [itemError, itemEOF, itemText, itemVariable, itemRightDelim, itemLeftDelim, itemPlus, itemDash, itemEquals, itemColonDash, itemColonEquals, itemColonPlus, itemCaretCaret, itemCommaComma]; done))
              · rw [if_neg c3]
                by_cases c4 : (c == '+') = true
                · rw [if_pos c4]
                  first
                  | exact shape_eof
                  | exact shape_error
                  | (refine shape_cons _ ?_ shape_eof <;> (simp [itemError, itemEOF, itemText, itemVariable, itemRightDelim, itemLeftDelim, itemPlus, itemDash, itemEquals, itemColonDash, itemColonEquals, itemColonPlus, itemCaretCaret, itemCommaComma]; done))
                  | (refine shape_cons _ ?_ (shape_cons _ ?_ shape_eof) <;> (simp [itemError, itemEOF, itemText, itemVariable, itemRightDelim, itemLeftDelim, itemPlus, itemDash, itemEquals, itemColonDash, itemColonEquals, itemColonPlus, itemCaretCaret, itemCommaComma]; done))
                  | (refine ih _ _ _ _ _ ?_;
                      simp only [lexReq, List.length_cons, List.length_nil] at *; omega)
                  | (refine shape_cons _ ?_ (ih _ _ _ _ _ ?_) <;>
                      first
                      | (simp only [lexReq, List.length_cons, List.length_nil] at *; omega)
                      | (simp [itemError, itemEOF, itemText, itemVariable, itemRightDelim, itemLeftDelim, itemPlus, itemDash, itemEquals, itemColonDash, itemColonEquals, itemColonPlus, itemCaretCaret, itemCommaComma]; done))
                  | (refine shape_cons _ ?_ (shape_cons _ ?_ (ih _ _ _ _ _ ?_)) <;>
                      first
                      | (simp only [lexReq, List.length_cons, List.length_nil] at *; omega)
                      | (simp [itemError, itemEOF, itemText, itemVariable, itemRightDelim, itemLeftDelim, itemPlus, itemDash, itemEquals, itemColonDash, itemColonEquals, itemColonPlus, itemCaretCaret, itemCommaComma]; done))
                · rw [if_neg c4]
                  by_cases c5 : (c == '-') = true
                  · rw [if_pos c5]
                    first
                    | exact shape_eof
                    | exact shape_error
                    | (refine shape_cons _ ?_ shape_eof <;> (simp [itemError, itemEOF, itemText, itemVariable, itemRightDelim, itemLeftDelim, itemPlus, itemDash, itemEquals, itemColonDash, itemColonEquals, itemColonPlus, itemCaretCaret, itemCommaComma]; done))
                    | (refine shape_cons _ ?_ (shape_cons _ ?_ shape_eof) <;> (simp [itemError, itemEOF, itemText, itemVariable, itemRightDelim, itemLeftDelim, itemPlus, itemDash, itemEquals, itemColonDash, itemColonEquals, itemColonPlus, itemCaretCaret, itemCommaComma]; done))
                    | (refine ih _ _ _ _ _ ?_;
                        simp only [lexReq, List.length_cons, List.length_nil] at *; omega)
                    | (refine shape_cons _ ?_ (ih _ _ _ _ _ ?_) <;>
                        first
                        | (simp only [lexReq, List.length_cons, List.length_nil] at *; omega)
                        | (simp [itemError, itemEOF, itemText, itemVariable, itemRightDelim, itemLeftDelim, itemPlus, itemDash, itemEquals, itemColonDash, itemColonEquals, itemColonPlus, itemCaretCaret, itemCommaComma]; done))
                    | (refine shape_cons _ ?_ (shape_cons _ ?_ (ih _ _ _ _ _ ?_)) <;>
                        first
                        | (simp only [lexReq, List.length_cons, List.length_nil] at *; omega)
                        | (simp [itemError, itemEOF, itemText, itemVariable, itemRightDelim, itemLeftDelim, itemPlus, itemDash, itemEquals, itemColonDash, itemColonEquals, itemColonPlus, itemCaretCaret, itemCommaComma]; done))
                  · rw [if_neg c5]
                    by_cases c6 : (c == '=') = true
                    · rw [if_pos c6]
                      first
                      | exact shape_eof
                      | exact shape_error
                      | (refine shape_cons _ ?_ shape_eof <;> (simp [itemError, itemEOF, itemText, itemVariable, itemRightDelim, itemLeftDelim, itemPlus, itemDash, itemEquals, itemColonDash, itemColonEquals, itemColonPlus, itemCaretCaret, itemCommaComma]; done))
                      | (refine shape_cons _ ?_ (shape_cons _ ?_ shape_eof) <;> (simp [itemError, itemEOF, itemText, itemVariable, itemRightDelim, itemLeftDelim, itemPlus, itemDash, itemEquals, itemColonDash, itemColonEquals, itemColonPlus, itemCaretCaret, itemCommaComma]; done))
                      | (refine ih _ _ _ _ _ ?_;
                          simp only [lexReq, List.length_cons, List.length_nil] at *; omega)
                      | (refine shape_cons _ ?_ (ih _ _ _ _ _ ?_) <;>
                          first
                          | (simp only [lexReq, List.length_cons, List.length_nil] at *; omega)
                          | (simp [itemError, itemEOF, itemText, itemVariable, itemRightDelim, itemLeftDelim, itemPlus, itemDash, itemEquals, itemColonDash, itemColonEquals, itemColonPlus, itemCaretCaret, itemCommaComma]; done))
                      | (refine shape_cons _ ?_ (shape_cons _ ?_ (ih _ _ _ _ _ ?_)) <;>
                          first
                          | (simp only [lexReq, List.length_cons, List.length_nil] at *; omega)
                          | (simp [itemError, itemEOF, itemText, itemVariable, itemRightDelim, itemLeftDelim, itemPlus, itemDash, itemEquals, itemColonDash, itemColonEquals, itemColonPlus, itemCaretCaret, itemCommaComma]; done))
                    · rw [if_neg c6]
                      by_cases c7 : (c == '^') = true
                      · rw [if_pos c7]
                        repeat' split
                        all_goals
                          first
                          | exact shape_eof
                          | exact shape_error
                          | (refine shape_cons _ ?_ shape_eof <;> (simp [itemError, itemEOF, itemText, itemVariable, itemRightDelim, itemLeftDelim, itemPlus, itemDash, itemEquals, itemColonDash, itemColonEquals, itemColonPlus, itemCaretCaret, itemCommaComma]; done))
                          | (refine shape_cons _ ?_ (shape_cons _ ?_ shape_eof) <;> (simp [itemError, itemEOF, itemText, itemVariable, itemRightDelim, itemLeftDelim, itemPlus, itemDash, itemEquals, itemColonDash, itemColonEquals, itemColonPlus, itemCaretCaret, itemCommaComma]; done))
                          | (refine ih _ _ _ _ _ ?_;
                              simp only [lexReq, List.length_cons, List.length_nil] at *; omega)
                          | (refine shape_cons _ ?_ (ih _ _ _ _ _ ?_) <;>
                              first
                              | (simp only [lexReq, List.length_cons, List.length_nil] at *; omega)
                              | (simp [itemError, itemEOF, itemText, itemVariable, itemRightDelim, itemLeftDelim, itemPlus, itemDash, itemEquals, itemColonDash, itemColonEquals, itemColonPlus, itemCaretCaret, itemCommaComma]; done))
                          | (refine shape_cons _ ?_ (shape_cons _ ?_ (ih _ _ _ _ _ ?_)) <;>
                              first
                              | (simp only [lexReq, List.length_cons, List.length_nil] at *; omega)
                              | (simp [itemError, itemEOF, itemText, itemVariable, itemRightDelim, itemLeftDelim, itemPlus, itemDash, itemEquals, itemColonDash, itemColonEquals, itemColonPlus, itemCaretCaret, itemCommaComma]; done))
                      · rw [if_neg c7]
                        by_cases c8 : (c == ',') = true
                        · rw [if_pos c8]
                          repeat' split
                          all_goals
                            first
                            | exact shape_eof
                            | exact shape_error
                            | (refine shape_cons _ ?_ shape_eof <;> (simp [itemError, itemEOF, itemText, itemVariable, itemRightDelim, itemLeftDelim, itemPlus, itemDash, itemEquals, itemColonDash, itemColonEquals, itemColonPlus, itemCaretCaret, itemCommaComma]; done))
                            | (refine shape_cons _ ?_ (shape_cons _ ?_ shape_eof) <;> (simp [itemError, itemEOF, itemText, itemVariable, itemRightDelim, itemLeftDelim, itemPlus, itemDash, itemEquals, itemColonDash, itemColonEquals, itemColonPlus, itemCaretCaret, itemCommaComma]; done))
                            | (refine ih _ _ _ _ _ ?_;
                                simp only [lexReq, List.length_cons, List.length_nil] at *; omega)
                            | (refine shape_cons _ ?_ (ih _ _ _ _ _ ?_) <;>
                                first
                                | (simp only [lexReq, List.length_cons, List.length_nil] at *; omega)
                                | (simp [itemError, itemEOF, itemText, itemVariable, itemRightDelim, itemLeftDelim, itemPlus, itemDash, itemEquals, itemColonDash, itemColonEquals, itemColonPlus, itemCaretCaret, itemCommaComma]; done))
                            | (refine shape_cons _ ?_ (shape_cons _ ?_ (ih _ _ _ _ _ ?_)) <;>
                                first
                                | (simp only [lexReq, List.length_cons, List.length_nil] at *; omega)
                                | (simp [itemError, itemEOF, itemText, itemVariable, itemRightDelim, itemLeftDelim, itemPlus, itemDash, itemEquals, itemColonDash, itemColonEquals, itemColonPlus, itemCaretCaret, itemCommaComma]; done))
                        · rw [if_neg c8]
                          by_cases c9 : (c == ':') = true
                          · rw [if_pos c9]
                            repeat' split
                            all_goals
                              first
                              | exact shape_eof
                              | exact shape_error
                              | (refine shape_cons _ ?_ shape_eof <;> (simp [itemError, itemEOF, itemText, itemVariable, itemRightDelim, itemLeftDelim, itemPlus, itemDash, itemEquals, itemColonDash, itemColonEquals, itemColonPlus, itemCaretCaret, itemCommaComma]; done))
                              | (refine shape_cons _ ?_ (shape_cons _ ?_ shape_eof) <;> (simp [itemError, itemEOF, itemText, itemVariable, itemRightDelim, itemLeftDelim, itemPlus, itemDash, itemEquals, itemColonDash, itemColonEquals, itemColonPlus, itemCaretCaret, itemCommaComma]; done))
                              | (refine ih _ _ _ _ _ ?_;
                                  simp only [lexReq, List.length_cons, List.length_nil] at *; omega)
                              | (refine shape_cons _ ?_ (ih _ _ _ _ _ ?_) <;>
                                  first
                                  | (simp only [lexReq, List.length_cons, List.length_nil] at *; omega)
                                  | (simp [itemError, itemEOF, itemText, itemVariable, itemRightDelim, itemLeftDelim, itemPlus, itemDash, itemEquals, itemColonDash, itemColonEquals, itemColonPlus, itemCaretCaret, itemCommaComma]; done))
                              | (refine shape_cons _ ?_ (shape_cons _ ?_ (ih _ _ _ _ _ ?_)) <;>
                                  first
                                  | (simp only [lexReq, List.length_cons, List.length_nil] at *; omega)
                                  | (simp [itemError, itemEOF, itemText, itemVariable, itemRightDelim, itemLeftDelim, itemPlus, itemDash, itemEquals, itemColonDash, itemColonEquals, itemColonPlus, itemCaretCaret, itemCommaComma]; done))
                          · rw [if_neg c9]
                            first
                            | exact shape_eof
                            | exact shape_error
                            | (refine shape_cons _ ?_ shape_eof <;> (simp [itemError, itemEOF, itemText, itemVariable, itemRightDelim, itemLeftDelim, itemPlus, itemDash, itemEquals, itemColonDash, itemColonEquals, itemColonPlus, itemCaretCaret, itemCommaComma]; done))
                            | (refine shape_cons _ ?_ (shape_cons _ ?_ shape_eof) <;> (simp [itemError, itemEOF, itemText, itemVariable, itemRightDelim, itemLeftDelim, itemPlus, itemDash, itemEquals, itemColonDash, itemColonEquals, itemColonPlus, itemCaretCaret, itemCommaComma]; done))
                            | (refine ih _ _ _ _ _ ?_;
                                simp only [lexReq, List.length_cons, List.length_nil] at *; omega)
                            | (refine shape_cons _ ?_ (ih _ _ _ _ _ ?_) <;>
                                first
                                | (simp only [lexReq, List.length_cons, List.length_nil] at *; omega)
                                | (simp [itemError, itemEOF, itemText, itemVariable, itemRightDelim, itemLeftDelim, itemPlus, itemDash, itemEquals, itemColonDash, itemColonEquals, itemColonPlus, itemCaretCaret, itemCommaComma]; done))
                            | (refine shape_cons _ ?_ (shape_cons _ ?_ (ih _ _ _ _ _ ?_)) <;>
                                first
                                | (simp only [lexReq, List.length_cons, List.length_nil] at *; omega)
                                | (simp [itemError, itemEOF, itemText, itemVariable, itemRightDelim, itemLeftDelim, itemPlus, itemDash, itemEquals, itemColonDash, itemColonEquals, itemColonPlus, itemCaretCaret, itemCommaComma]; done))
      | subst =>
        rw [lexRun_subst_step]
        try dsimp only
        repeat' split
        all_goals try simp only [List.nil_append, List.cons_append]
        all_goals
          first
          | exact shape_eof
          | exact shape_error
          | (refine shape_cons _ ?_ shape_eof <;> (simp [itemError, itemEOF, itemText, itemVariable, itemRightDelim, itemLeftDelim, itemPlus, itemDash, itemEquals, itemColonDash, itemColonEquals, itemColonPlus, itemCaretCaret, itemCommaComma]; done))
          | (refine shape_cons _ ?_ (shape_cons _ ?_ shape_eof) <;> (simp [itemError, itemEOF, itemText, itemVariable, itemRightDelim, itemLeftDelim, itemPlus, itemDash, itemEquals, itemColonDash, itemColonEquals, itemColonPlus, itemCaretCaret, itemCommaComma]; done))
          | (refine ih _ _ _ _ _ ?_;
              simp only [lexReq, List.length_cons, List.length_nil] at *; omega)
          | (refine shape_cons _ ?_ (ih _ _ _ _ _ ?_) <;>
              first
              | (simp only [lexReq, List.length_cons, List.length_nil] at *; omega)
              | (simp [itemError, itemEOF, itemText, itemVariable, itemRightDelim, itemLeftDelim, itemPlus, itemDash, itemEquals, itemColonDash, itemColonEquals, itemColonPlus, itemCaretCaret, itemCommaComma]; done))
          | (refine shape_cons _ ?_ (shape_cons _ ?_ (ih _ _ _ _ _ ?_)) <;>
              first
              | (simp only [lexReq, List.length_cons, List.length_nil] at *; omega)
              | (simp [itemError, itemEOF, itemText, itemVariable, itemRightDelim, itemLeftDelim, itemPlus, itemDash, itemEquals, itemColonDash, itemColonEquals, itemColonPlus, itemCaretCaret, itemCommaComma]; done))
      | text =>
        rw [lexRun_text_step]
        try dsimp only
        repeat' split
        all_goals try simp only [List.nil_append, List.cons_append]
        all_goals
          first
          | exact shape_eof
          | exact shape_error
          | (refine shape_cons _ ?_ shape_eof <;> (simp [itemError, itemEOF, itemText, itemVariable, itemRightDelim, itemLeftDelim, itemPlus, itemDash, itemEquals, itemColonDash, itemColonEquals, itemColonPlus, itemCaretCaret, itemCommaComma]; done))
          | (refine shape_cons _ ?_ (shape_cons _ ?_ shape_eof) <;> (simp [itemError, itemEOF, itemText, itemVariable, itemRightDelim, itemLeftDelim, itemPlus, itemDash, itemEquals, itemColonDash, itemColonEquals, itemColonPlus, itemCaretCaret, itemCommaComma]; done))
          | (refine ih _ _ _ _ _ ?_;
              simp only [lexReq, List.length_cons, List.length_nil] at *; omega)
          | (refine shape_cons _ ?_ (ih _ _ _ _ _ ?_) <;>
              first
              | (simp only [lexReq, List.length_cons, List.length_nil] at *; omega)
              | (simp [itemError, itemEOF, itemText, itemVariable, itemRightDelim, itemLeftDelim, itemPlus, itemDash, itemEquals, itemColonDash, itemColonEquals, itemColonPlus, itemCaretCaret, itemCommaComma]; done))
          | (refine shape_cons _ ?_ (shape_cons _ ?_ (ih _ _ _ _ _ ?_)) <;>
              first
              | (simp only [lexReq, List.length_cons, List.length_nil] at *; omega)
              | (simp [itemError, itemEOF, itemText, itemVariable, itemRightDelim, itemLeftDelim, itemPlus, itemDash, itemEquals, itemColonDash, itemColonEquals, itemColonPlus, itemCaretCaret, itemCommaComma]; done))
      | var =>
        rw [lexRun_var_step]
        try dsimp only
        repeat' split
        all_goals try simp only [List.nil_append, List.cons_append]
        all_goals
          first
          | exact shape_eof
          | exact shape_error
          | (refine shape_cons _ ?_ shape_eof <;> (simp [itemError, itemEOF, itemText, itemVariable, itemRightDelim, itemLeftDelim, itemPlus, itemDash, itemEquals, itemColonDash, itemColonEquals, itemColonPlus, itemCaretCaret, itemCommaComma]; done))
          | (refine shape_cons _ ?_ (shape_cons _ ?_ shape_eof) <;> (simp [itemError, itemEOF, itemText, itemVariable, itemRightDelim, itemLeftDelim, itemPlus, itemDash, itemEquals, itemColonDash, itemColonEquals, itemColonPlus, itemCaretCaret, itemCommaComma]; done))
          | (refine ih _ _ _ _ _ ?_;
              simp only [lexReq, List.length_cons, List.length_nil] at *; omega)
          | (refine shape_cons _ ?_ (ih _ _ _ _ _ ?_) <;>
              first
              | (simp only [lexReq, List.length_cons, List.length_nil] at *; omega)
              | (simp [itemError, itemEOF, itemText, itemVariable, itemRightDelim, itemLeftDelim, itemPlus, itemDash, itemEquals, itemColonDash, itemColonEquals, itemColonPlus, itemCaretCaret, itemCommaComma]; done))
          | (refine shape_cons _ ?_ (shape_cons _ ?_ (ih _ _ _ _ _ ?_)) <;>
              first
              | (simp only [lexReq, List.length_cons, List.length_nil] at *; omega)
              | (simp [itemError, itemEOF, itemText, itemVariable, itemRightDelim, itemLeftDelim, itemPlus, itemDash, itemEquals, itemColonDash, itemColonEquals, itemColonPlus, itemCaretCaret, itemCommaComma]; done))
      | varDone =>
        rw [lexRun_varDone_step]
        try dsimp only
        repeat' split
        all_goals try simp only [List.nil_append, List.cons_append]
        all_goals
          first
          | exact shape_eof
          | exact shape_error
          | (refine shape_cons _ ?_ shape_eof <;> (simp [itemError, itemEOF, itemText, itemVariable, itemRightDelim, itemLeftDelim, itemPlus, itemDash, itemEquals, itemColonDash, itemColonEquals, itemColonPlus, itemCaretCaret, itemCommaComma]; done))
          | (refine shape_cons _ ?_ (shape_cons _ ?_ shape_eof) <;> (simp [itemError, itemEOF, itemText, itemVariable, itemRightDelim, itemLeftDelim, itemPlus, itemDash, itemEquals, itemColonDash, itemColonEquals, itemColonPlus, itemCaretCaret, itemCommaComma]; done))
          | (refine ih _ _ _ _ _ ?_;
              simp only [lexReq, List.length_cons, List.length_nil] at *; omega)
          | (refine shape_cons _ ?_ (ih _ _ _ _ _ ?_) <;>
              first
              | (simp only [lexReq, List.length_cons, List.length_nil] at *; omega)
              | (simp [itemError, itemEOF, itemText, itemVariable, itemRightDelim, itemLeftDelim, itemPlus, itemDash, itemEquals, itemColonDash, itemColonEquals, itemColonPlus, itemCaretCaret, itemCommaComma]; done))
          | (refine shape_cons _ ?_ (shape_cons _ ?_ (ih _ _ _ _ _ ?_)) <;>
              first
              | (simp only [lexReq, List.length_cons, List.length_nil] at *; omega)
              | (simp [itemError, itemEOF, itemText, itemVariable, itemRightDelim, itemLeftDelim, itemPlus, itemDash, itemEquals, itemColonDash, itemColonEquals, itemColonPlus, itemCaretCaret, itemCommaComma]; done))

/-! ### Claim C7: scan errors abort parsing in every mode -/

theorem goodMid_tail {x : Item} {l : List Item} (h : goodMid (x :: l)) : goodMid l :=
  fun it hit => h it (List.mem_cons_of_mem _ hit)

/-- The text-collecting loop never crosses an Error item: on a stream of good
items followed by an error, the unconsumed remainder still ends in that same
error, preceded only by good items. -/
theorem collectText_err (env : Env) (msg : String) :
    ∀ (mid : List Item) (acc : String), goodMid mid →
      ∃ acc2 mid2,
        collectText env acc (mid ++ [⟨itemError, msg⟩]) =
          (acc2, mid2 ++ [⟨itemError, msg⟩]) ∧ goodMid mid2 := by
  intro mid
  induction mid with
  | nil =>
    intro acc _
    exact ⟨acc, [], rfl, goodMid_nil⟩
  | cons t mid1 ih =>
    intro acc h
    have hmid1 := goodMid_tail h
    rw [List.cons_append, collectText]
    by_cases h1 : (t.typ == itemRightDelim || t.typ == itemError || t.typ == itemEOF) = true
    · rw [if_pos h1]
      exact ⟨acc, t :: mid1, by rw [List.cons_append], h⟩
    · rw [if_neg h1]
      by_cases h2 : (t.typ == itemVariable) = true
      · rw [if_pos h2]
        by_cases h3 : (env.Has (trimDollar t.val)) = true
        · rw [if_pos h3]
          exact ih _ hmid1
        · rw [if_neg h3]
          exact ih _ hmid1
      · rw [if_neg h2]
        by_cases h4 : (t.typ == itemLeftDelim) = true
        · rw [if_pos h4]
          exact ⟨acc, t :: mid1, by rw [List.cons_append], h⟩
        · rw [if_neg h4]
          exact ih _ hmid1

/-- The substitution-building loop never crosses an Error item: fed a stream
of good items followed by an error, it either fails or returns a remainder
that still ends in that same error, preceded only by good items. -/
theorem actionLoop_err (env : Env) (r : Restrictions) (msg : String) :
    ∀ (fuel : Nat) (expT : Nat) (dflt : Option Node) (ident : String) (mid : List Item),
      goodMid mid →
      (∃ e, actionLoop env r fuel expT dflt ident (mid ++ [⟨itemError, msg⟩]) = .error e) ∨
      (∃ n mid2,
        actionLoop env r fuel expT dflt ident (mid ++ [⟨itemError, msg⟩]) =
          .ok (n, mid2 ++ [⟨itemError, msg⟩]) ∧ goodMid mid2) := by
  intro fuel
  induction fuel with
  | zero =>
    intro expT dflt ident mid _
    exact Or.inl ⟨⟨"token stream stalled", ""⟩, rfl⟩
  | succ f ih =>
    intro expT dflt ident mid hmid
    cases mid with
    | nil =>
      exact Or.inl ⟨⟨msg, ""⟩, rfl⟩
    | cons t mid1 =>
      have ht := hmid t (List.mem_cons_self t mid1)
      have hmid1 := goodMid_tail hmid
      rw [List.cons_append, actionLoop_cons]
      by_cases h1 : (t.typ == itemRightDelim) = true
      · rw [if_pos h1]
        cases dflt with
        | some d => exact Or.inr ⟨.subst expT ident d, mid1, rfl, hmid1⟩
        | none => exact Or.inr ⟨.subst0 expT ident, mid1, rfl, hmid1⟩
      · rw [if_neg h1]
        have hne : ¬((t.typ == itemError) = true) :=
          fun hh => ht.1 (eq_of_beq hh)
        rw [if_neg hne]
        by_cases h3 : (t.typ == itemVariable) = true
        · rw [if_pos h3]
          exact ih expT _ ident mid1 hmid1
        · rw [if_neg h3]
          by_cases h4 : (t.typ == itemText) = true
          · rw [if_pos h4]
            obtain ⟨acc2, mid2, hct, hmid2⟩ := collectText_err env msg mid1 t.val hmid1
            dsimp only
            rw [hct]
            exact ih expT _ ident mid2 hmid2
          · rw [if_neg h4]
            by_cases h5 : (t.typ == itemLeftDelim) = true
            · rw [if_pos h5]
              cases mid1 with
              | nil =>
                exact ih expT (some (.text "$\x7b")) ident [] goodMid_nil
              | cons t2 mid2 =>
                rw [List.cons_append]
                dsimp only
                by_cases h6 : (t2.typ == itemVariable) = true
                · rw [if_pos h6]
                  rcases ih 0 none t2.val mid2 (goodMid_tail hmid1) with ⟨e, he⟩ | ⟨n2, mid3, hok, hmid3⟩
                  · rw [he]
                    exact Or.inl ⟨e, rfl⟩
                  · rw [hok]
                    dsimp only
                    cases hns : nodeString env r n2 with
                    | error e2 => exact Or.inl ⟨e2, rfl⟩
                    | ok s => exact ih expT (some (.text s)) ident mid3 hmid3
                · rw [if_neg h6]
                  exact ih expT (some (.text "$\x7b")) ident (t2 :: mid2) hmid1
            · rw [if_neg h5]
              exact ih t.typ dflt ident mid1 hmid1

/-- The top-level parse loop fails whenever the stream ends in an Error item
preceded only by good items. -/
theorem parseLoop_err (env : Env) (r : Restrictions) (msg : String) :
    ∀ (fuel : Nat) (mid : List Item), goodMid mid →
      (parseLoop env r fuel (mid ++ [⟨itemError, msg⟩])).2.isSome = true := by
  intro fuel
  induction fuel with
  | zero => intro mid _; rfl
  | succ f ih =>
    intro mid hmid
    cases mid with
    | nil => rfl
    | cons t mid1 =>
      have ht := hmid t (List.mem_cons_self t mid1)
      have hmid1 := goodMid_tail hmid
      rw [List.cons_append, parseLoop_cons]
      have hnf : ¬((t.typ == itemEOF) = true) :=
        fun hh => ht.2 (eq_of_beq hh)
      have hne : ¬((t.typ == itemError) = true) :=
        fun hh => ht.1 (eq_of_beq hh)
      rw [if_neg hnf, if_neg hne]
      by_cases h3 : (t.typ == itemVariable) = true
      · rw [if_pos h3]
        exact ih mid1 hmid1
      · rw [if_neg h3]
        by_cases h4 : (t.typ == itemLeftDelim
            && (match mid1 ++ [(⟨itemError, msg⟩ : Item)] with
                | t2 :: _ => t2.typ == itemVariable | [] => false)) = true
        · rw [if_pos h4]
          cases mid1 with
          | nil =>
            have ha : action env r f ([] ++ [(⟨itemError, msg⟩ : Item)]) =
                actionLoop env r f 0 none msg [] := rfl
            rw [ha]
            cases f with
            | zero => rfl
            | succ g => rfl
          | cons t2 mid2 =>
            rw [List.cons_append]
            have ha : action env r f (t2 :: (mid2 ++ [(⟨itemError, msg⟩ : Item)])) =
                actionLoop env r f 0 none t2.val (mid2 ++ [(⟨itemError, msg⟩ : Item)]) := rfl
            rw [ha]
            rcases actionLoop_err env r msg f 0 none t2.val mid2 (goodMid_tail hmid1) with
              ⟨e, he⟩ | ⟨n2, mid3, hok, hmid3⟩
            · rw [he]
              rfl
            · rw [hok]
              dsimp only
              exact ih mid3 hmid3
        · rw [if_neg h4]
          dsimp only
          exact ih mid1 hmid1

/-- When the scan of an input ends in an Error item, Parse fails in both
modes, for every store and every restriction policy. -/
theorem Parse_scanError (env : Env) (r : Restrictions) (mode : Mode) (input : String)
    (mid : List Item) (msg : String)
    (hscan : lex r.noDigit r.varMatcher input.toList = mid ++ [⟨itemError, msg⟩])
    (hmid : goodMid mid) :
    (Parse env r mode input).2.isSome = true := by
  simp only [Parse, hscan]
  cases hq : parseLoop env r ((mid ++ [(⟨itemError, msg⟩ : Item)]).length + 1)
      (mid ++ [(⟨itemError, msg⟩ : Item)]) with
  | mk nodes perr =>
    have hp : perr.isSome = true := by
      have := parseLoop_err env r msg ((mid ++ [(⟨itemError, msg⟩ : Item)]).length + 1) mid hmid
      rw [hq] at this
      exact this
    cases perr with
    | none => simp at hp
    | some e =>
      cases mode with
      | Quick => rfl
      | AllErrors =>
        dsimp only
        rw [renderAllErrors_eq]
        rfl

/-- Claim C7: whenever the scan of an input contains an Error item (an
expansion that reached end of input or a line terminator before its closing
brace), that item carries the message "closing brace expected", is the last
item of the stream, and Parse fails on that input for every store, every
restriction policy and both modes; the repository example scans to exactly
the unterminated prefix items plus that error and fails to parse with that
message under every store, policy and mode. -/
theorem C7_unterminated (env : Env) (r : Restrictions) (mode : Mode) (input : String)
    (h : ∃ it, it ∈ lex r.noDigit r.varMatcher input.toList ∧ it.typ = itemError) :
    (∃ mid, lex r.noDigit r.varMatcher input.toList =
        mid ++ [⟨itemError, "closing brace expected"⟩] ∧ goodMid mid) ∧
    (Parse env r mode input).2.isSome = true ∧
    (∀ (nd : Bool) (m : Option (String → Bool)),
      lex nd m "hello $\x7b".toList =
        [⟨itemText, "hello "⟩, ⟨itemLeftDelim, "$\x7b"⟩,
         ⟨itemError, "closing brace expected"⟩]) ∧
    (∀ (env2 : Env) (r2 : Restrictions) (mode2 : Mode),
      Parse env2 r2 mode2 "hello $\x7b" = ("", some ⟨"closing brace expected", ""⟩)) := by
  have hshape : ShapeP (lex r.noDigit r.varMatcher input.toList) :=
    lexRun_shape r.noDigit r.varMatcher (3 * input.toList.length + 3) .text [] []
      input.toList 0 (by simp only [lexReq]; omega)
  obtain ⟨mid, last, heq, hmid, hlast⟩ := hshape
  obtain ⟨it, hit, htyp⟩ := h
  have hlast2 : last = ⟨itemError, "closing brace expected"⟩ := by
    cases hlast with
    | inr h2 => exact h2
    | inl h2 =>
      exfalso
      rw [heq] at hit
      rcases List.mem_append.mp hit with h3 | h3
      · exact (hmid it h3).1 htyp
      · have h4 : it = last := List.mem_singleton.mp h3
        rw [h4, h2] at htyp
        exact absurd htyp (by decide)
  refine ⟨⟨mid, by rw [heq, hlast2], hmid⟩, ?_, ?_, ?_⟩
  · exact Parse_scanError env r mode input mid _ (by rw [heq, hlast2]) hmid
  · intro nd m
    cases nd <;> rfl
  · intro env2 r2 mode2
    obtain ⟨nU, nE, nD, kU, vM⟩ := r2
    cases nD <;> cases mode2 <;> rfl

theorem C7_unterminated_witness :
    (Parse fakeEnv relaxed .Quick "hello $\x7b").2.isSome = true :=
  (C7_unterminated fakeEnv relaxed .Quick "hello $\x7b"
    ⟨⟨itemError, "closing brace expected"⟩, by decide, rfl⟩).2.1

end envsubst
